import Mathlib

/-!
Verification development for the stock-market ETL pipeline
(`main.py`, `main_parallel.py`, `main_parallel_duckdb.py`).

The Python sources are shallowly embedded: dictionaries become association
lists (in insertion order, as Python dicts preserve it), `datetime` values
become a six-field `DateTime` structure compared lexicographically,
`float(...)` / `int(...)` on the API's decimal strings become rational /
integer parsers, and the SQL store becomes explicit list-of-row state with
the key semantics declared by the repository's `CREATE TABLE` statements.
-/

namespace Etl

/-! ## Characters, digits, splitting

`datetime.strptime` is modelled by hand-rolled parsers over `List Char`.
`splitOnChar` plays the role of cutting a format string at its separators.
-/

/-- Numeric value of a list of decimal digit characters, most significant first. -/
def digitsToNat (l : List Char) : Nat :=
  l.foldl (fun a c => a * 10 + (c.toNat - 48)) 0

/-- Split a character list at every occurrence of `c` (occurrences deleted);
always returns at least one (possibly empty) chunk, like Python's `str.split`. -/
def splitOnChar (c : Char) : List Char → List (List Char)
  | [] => [[]]
  | x :: xs =>
    match splitOnChar c xs with
    | [] => [[]]
    | y :: ys => if x = c then [] :: y :: ys else (x :: y) :: ys

/-! ## Date-time values

Python `datetime` / `date` values, restricted to the fields the pipeline
uses. A `date()` is a `DateTime` whose time fields are zero. Comparison is
lexicographic on (year, month, day, hour, minute, second), realised through
the injective-on-valid-values encoding `key`. -/

/-- A parsed `datetime.datetime` (or `datetime.date`, with zero time part). -/
structure DateTime where
  year : Nat
  month : Nat
  day : Nat
  hour : Nat
  minute : Nat
  second : Nat
deriving DecidableEq, Repr

/-- Mixed-radix encoding of a date-time; on values produced by the parsers
(month ≤ 12, day ≤ 31, hour ≤ 23, minute/second ≤ 59) comparing `key`s is
exactly Python's lexicographic `datetime` comparison. -/
def DateTime.key (d : DateTime) : Nat :=
  ((((d.year * 13 + d.month) * 32 + d.day) * 24 + d.hour) * 60 + d.minute) * 60 + d.second

/-- Gregorian leap-year test, as `calendar.isleap`. -/
def isLeap (y : Nat) : Bool :=
  y % 4 == 0 && (y % 100 != 0 || y % 400 == 0)

/-- Number of days in a month, used by `strptime` to validate the day field. -/
def daysInMonth (y m : Nat) : Nat :=
  if m = 2 then (if isLeap y then 29 else 28)
  else if m = 4 ∨ m = 6 ∨ m = 9 ∨ m = 11 then 30
  else 31

/-! ## Numeric field parsers

`strptime` accepts 1–2 digits for `%m %d %H %M %S` and 1–4 for `%Y`;
`float()` on the API's decimal strings and `int()` on its integer strings
are modelled by exact rational / integer parsers. -/

/-- Parse a bare digit run of length between `lo` and `hi` (as one `strptime`
field); fails on empty input or any non-digit character. -/
def parseNatField (lo hi : Nat) (l : List Char) : Option Nat :=
  if lo ≤ l.length ∧ l.length ≤ hi ∧ l ≠ [] ∧ l.all (·.isDigit) then
    some (digitsToNat l)
  else none

/-- Python `int(s)` on an optionally signed digit string. -/
def parseIntChars : List Char → Option Int
  | '-' :: rest =>
    if rest ≠ [] ∧ rest.all (·.isDigit) then some (-(digitsToNat rest : Int)) else none
  | '+' :: rest =>
    if rest ≠ [] ∧ rest.all (·.isDigit) then some (digitsToNat rest : Int) else none
  | l => if l ≠ [] ∧ l.all (·.isDigit) then some (digitsToNat l : Int) else none

/-- An exact decimal number `mantissa / 10 ^ scale`, the value space of the
`DECIMAL(15, 4)` columns and of `float()` on the API's decimal strings
(which are short exact decimals).  `"191.5"` parses to `⟨1915, 1⟩`. -/
structure Decimal where
  mantissa : Int
  scale : Nat
deriving DecidableEq, Repr

/-- Unsigned part of `float(s)`: digits with an optional fractional part. -/
def parseUnsignedDecimal (l : List Char) : Option Decimal :=
  let ip := l.takeWhile (·.isDigit)
  match l.dropWhile (·.isDigit) with
  | [] => if ip = [] then none else some ⟨digitsToNat ip, 0⟩
  | '.' :: fp =>
    if fp.all (·.isDigit) ∧ (ip ≠ [] ∨ fp ≠ []) then
      some ⟨digitsToNat (ip ++ fp), fp.length⟩
    else none
  | _ => none

/-- Python `float(s)` on the decimal strings returned by the API. -/
def parseDecimalChars : List Char → Option Decimal
  | '-' :: rest => (parseUnsignedDecimal rest).map (fun q => ⟨-q.mantissa, q.scale⟩)
  | '+' :: rest => parseUnsignedDecimal rest
  | l => parseUnsignedDecimal l

def parseInt (s : String) : Option Int := parseIntChars s.toList

def parseDecimal (s : String) : Option Decimal := parseDecimalChars s.toList

/-! ## strptime / strftime -/

/-- `datetime.strptime(s, "%Y-%m-%d").date()`: a calendar date, with
month and day validated; the time part of the result is zero (midnight). -/
def parseDateChars (l : List Char) : Option DateTime :=
  match splitOnChar '-' l with
  | [ys, ms, ds] => do
    let y ← parseNatField 1 4 ys
    let mo ← parseNatField 1 2 ms
    let d ← parseNatField 1 2 ds
    if 1 ≤ mo ∧ mo ≤ 12 ∧ 1 ≤ d ∧ d ≤ daysInMonth y mo then
      some ⟨y, mo, d, 0, 0, 0⟩
    else none
  | _ => none

/-- The `"%H:%M:%S"` part of a `strptime` format. -/
def parseTimeChars (l : List Char) : Option (Nat × Nat × Nat) :=
  match splitOnChar ':' l with
  | [hs, ms, ss] => do
    let h ← parseNatField 1 2 hs
    let mi ← parseNatField 1 2 ms
    let s ← parseNatField 1 2 ss
    if h ≤ 23 ∧ mi ≤ 59 ∧ s ≤ 59 then some (h, mi, s) else none
  | _ => none

/-- `datetime.strptime(s, "%Y-%m-%d %H:%M:%S")`. -/
def parseDateTimeChars (l : List Char) : Option DateTime :=
  match splitOnChar ' ' l with
  | [dp, tp] => do
    let d ← parseDateChars dp
    let t ← parseTimeChars tp
    some { d with hour := t.1, minute := t.2.1, second := t.2.2 }
  | _ => none

def parseDate (s : String) : Option DateTime := parseDateChars s.toList

def parseDateTime (s : String) : Option DateTime := parseDateTimeChars s.toList

/-- Zero-padded two-digit rendering, as `strftime` emits for `%m %d %H %M %S`. -/
def pad2 (n : Nat) : String :=
  if n < 10 then "0" ++ toString n else toString n

/-- Zero-padded four-digit rendering of a year (`%Y`). -/
def pad4 (n : Nat) : String :=
  if n < 10 then "000" ++ toString n
  else if n < 100 then "00" ++ toString n
  else if n < 1000 then "0" ++ toString n
  else toString n

/-- `dt.strftime("%Y-%m-%d")`. -/
def formatDate (d : DateTime) : String :=
  pad4 d.year ++ "-" ++ pad2 d.month ++ "-" ++ pad2 d.day

/-- `dt.strftime("%Y-%m-%d %H:%M:%S")`. -/
def formatDateTime (d : DateTime) : String :=
  formatDate d ++ " " ++ pad2 d.hour ++ ":" ++ pad2 d.minute ++ ":" ++ pad2 d.second

/-! ## JSON payloads

A top-level Alpha Vantage response maps string keys either to string values
(`"Error Message"`, `"Note"`) or to a nested time-series object mapping
timestamp strings to field dictionaries of strings. Dictionaries are
association lists in insertion order. -/

/-- A field dictionary, e.g. `{"1. open": "190.0", ...}`. -/
abbrev FieldMap := List (String × String)

/-- A nested time-series object: timestamp string to field dictionary. -/
abbrev SeriesMap := List (String × FieldMap)

/-- A top-level JSON value in an API response. -/
inductive JVal where
  | str (s : String)
  | series (m : SeriesMap)
deriving DecidableEq, Repr

/-- A parsed top-level API response. -/
abbrev Json := List (String × JVal)

/-- Python `d[k]` / `k in d` lookup on a top-level response. -/
def jsonLookup : Json → String → Option JVal
  | [], _ => none
  | (k', v) :: rest, k => if k' = k then some v else jsonLookup rest k

/-- Python `values[k]` lookup on a field dictionary. -/
def fieldLookup : FieldMap → String → Option String
  | [], _ => none
  | (k', v) :: rest, k => if k' = k then some v else fieldLookup rest k

/-! ## The relational store

One row of a price/indicator table.  The code hands the raw timestamp
string to the SQL driver; the table's `DATE` / `TIMESTAMP` column stores the
cast value, which the row records in `ts` (the per-dataset builders fill it
with exactly the cast of `tsStr`).  The `CREATE TABLE` statements declare
`PRIMARY KEY (company_symbol, date)` resp. `(company_symbol, date_time)`,
so `(symbol, ts)` is the uniqueness key. -/

structure Row (α : Type) where
  symbol : String
  tsStr : String
  ts : DateTime
  val : α
deriving DecidableEq, Repr

/-- Decimal price fields of a daily/intraday row, named after the columns. -/
structure PriceFields where
  open_price : Decimal
  high_price : Decimal
  low_price : Decimal
  close_price : Decimal
  volume : Int
deriving DecidableEq, Repr

/-- Rows of a table that belong to one symbol (`WHERE company_symbol = %s`). -/
def rowsOf {α : Type} (sym : String) (t : List (Row α)) : List (Row α) :=
  t.filter (fun r => decide (r.symbol = sym))

/-- One accumulation step of a SQL `MAX` aggregate over timestamps. -/
def maxStep {α : Type} (acc : Option DateTime) (r : Row α) : Option DateTime :=
  match acc with
  | none => some r.ts
  | some m => if m.key < r.ts.key then some r.ts else some m

/-- `SELECT MAX(ts-column) ...` over a list of rows; `none` on an empty list. -/
def maxTs {α : Type} (rows : List (Row α)) : Option DateTime :=
  rows.foldl maxStep none

/-- `check_last_date` of the parallel variant for one table: the maximum
stored timestamp for a symbol, `None` when the symbol has no rows. -/
def lastTs {α : Type} (sym : String) (t : List (Row α)) : Option DateTime :=
  maxTs (rowsOf sym t)

/-- The table already holds a row with this primary key. -/
def keyMem {α : Type} (t : List (Row α)) (sym : String) (d : DateTime) : Prop :=
  ∃ r ∈ t, r.symbol = sym ∧ r.ts = d

instance {α : Type} (t : List (Row α)) (sym : String) (d : DateTime) :
    Decidable (keyMem t sym d) := by
  unfold keyMem
  exact List.decidableBEx _ t

/-- One row of `INSERT ... ON CONFLICT (company_symbol, ts) DO NOTHING`
(resp. DuckDB `INSERT OR IGNORE`): appended unless the key exists. -/
def insertOrIgnore {α : Type} (t : List (Row α)) (r : Row α) : List (Row α) :=
  if keyMem t r.symbol r.ts then t else t ++ [r]

/-- `executemany` over a batch: the rows of `values_list` in order. -/
def insertBatch {α : Type} (t : List (Row α)) (rs : List (Row α)) : List (Row α) :=
  rs.foldl insertOrIgnore t

/-- Shared skip test of the three `process_*` loops:
`last_date is not None and parsed <= last_date`. -/
def belowWatermark (last : Option DateTime) (d : DateTime) : Bool :=
  match last with
  | none => false
  | some L => d.key ≤ L.key

/-- Shared shape of one loop iteration of the `process_*` functions:
parse the timestamp key, `continue` when it is at or below the watermark,
then build the row from the field dictionary (skipping the record when a
field is missing or fails to parse). -/
def entryOf {α : Type} (parseTs : String → Option DateTime)
    (build : String → DateTime → FieldMap → Option (Row α))
    (last : Option DateTime) (kv : String × FieldMap) : Option (Row α) :=
  match parseTs kv.1 with
  | none => none
  | some d => if belowWatermark last d then none else build kv.1 d kv.2

/-- Shared shape of the three `process_*` functions of the parallel variants:
return immediately on an empty payload, read the watermark, build
`values_list`, and issue one batched insert-or-ignore when it is non-empty. -/
def processTable {α : Type}
    (mk : Option DateTime → String × FieldMap → Option (Row α))
    (sym : String) (data : SeriesMap) (t : List (Row α)) : List (Row α) :=
  if data.isEmpty then t
  else
    let vl := data.filterMap (mk (lastTs sym t))
    if vl.isEmpty then t else insertBatch t vl

/-- As `processTable`, with the possibility that the store raises inside
`execute_batch` (`sf` = a store fault occurs on this call); on a fault the
transaction is rolled back, so the table is unchanged and the error
propagates to the caller. -/
def processTableE {α : Type} (sf : Bool)
    (mk : Option DateTime → String × FieldMap → Option (Row α))
    (sym : String) (data : SeriesMap) (t : List (Row α)) :
    Except JVal (List (Row α)) :=
  if data.isEmpty then .ok t
  else
    let vl := data.filterMap (mk (lastTs sym t))
    if vl.isEmpty then .ok t
    else if sf then .error (.str "Error executing batch") else .ok (insertBatch t vl)

/-! ## Dataset-specific record builders (`main_parallel.py`)

`process_daily_stock_prices` (lines 254-288), `process_intraday_stock_prices`
(291-325) and `process_sma_indicators` (328-362) differ only in the
timestamp format(s) tried and the fields extracted. -/

/-- Field extraction of the price loops: `float(values['1. open'])` ...
`int(values['5. volume'])`, in source order; a missing key (`KeyError`) or a
non-numeric string (`ValueError`) yields `none` (the record is skipped). -/
def parsePriceFields (v : FieldMap) : Option PriceFields := do
  let o ← (fieldLookup v "1. open").bind parseDecimal
  let h ← (fieldLookup v "2. high").bind parseDecimal
  let lo ← (fieldLookup v "3. low").bind parseDecimal
  let c ← (fieldLookup v "4. close").bind parseDecimal
  let vol ← (fieldLookup v "5. volume").bind parseInt
  some ⟨o, h, lo, c, vol⟩

/-- One iteration of the daily loop: `datetime.strptime(date_str, '%Y-%m-%d')
.date()`, the watermark `continue`, the field parses, and the insert tuple
`(symbol, date_str, ...)`; the `DATE` column stores the cast of `date_str`,
which is its parse. -/
def dailyEntry (sym : String) : Option DateTime → String × FieldMap →
    Option (Row PriceFields) :=
  entryOf parseDate (fun k d v => (parsePriceFields v).map (fun f => ⟨sym, k, d, f⟩))

/-- One iteration of the intraday loop, with format `'%Y-%m-%d %H:%M:%S'`. -/
def intradayEntry (sym : String) : Option DateTime → String × FieldMap →
    Option (Row PriceFields) :=
  entryOf parseDateTime (fun k d v => (parsePriceFields v).map (fun f => ⟨sym, k, d, f⟩))

/-- SMA timestamp parse of `main_parallel.py` (lines 339-342): try
`'%Y-%m-%d %H:%M:%S'` first, fall back to `'%Y-%m-%d'`. -/
def smaParseTsP (s : String) : Option DateTime :=
  match parseDateTime s with
  | some dt => some dt
  | none => parseDate s

/-- One iteration of the SMA loop of `main_parallel.py`: two-format timestamp
parse, watermark `continue`, `float(values['SMA'])`, insert tuple
`(symbol, date_time_str, sma)`; the `TIMESTAMP` column's cast of the raw
string equals the parsed value (a date-only string casts to midnight). -/
def smaEntryP (sym : String) : Option DateTime → String × FieldMap →
    Option (Row Decimal) :=
  entryOf smaParseTsP
    (fun k d v => ((fieldLookup v "SMA").bind parseDecimal).map (fun q => ⟨sym, k, d, q⟩))

/-- `process_daily_stock_prices` of `main_parallel.py` lines 254-288 (the
loop of `main_parallel_duckdb.py` lines 196-229 is identical, with DuckDB's
`INSERT OR IGNORE` in place of `ON CONFLICT DO NOTHING`). -/
def process_daily_stock_prices (sym : String) (data : SeriesMap)
    (t : List (Row PriceFields)) : List (Row PriceFields) :=
  processTable (dailyEntry sym) sym data t

/-- `process_intraday_stock_prices` of `main_parallel.py` lines 291-325. -/
def process_intraday_stock_prices (sym : String) (data : SeriesMap)
    (t : List (Row PriceFields)) : List (Row PriceFields) :=
  processTable (intradayEntry sym) sym data t

/-- `process_sma_indicators` of `main_parallel.py` lines 328-362. -/
def process_sma_indicators (sym : String) (data : SeriesMap)
    (t : List (Row Decimal)) : List (Row Decimal) :=
  processTable (smaEntryP sym) sym data t

/-! ## DuckDB SMA variant (`main_parallel_duckdb.py` lines 268-308)

This variant tries the date-only format first, falls back to the full
format, and re-formats the parsed value before storing: the full
`strftime('%Y-%m-%d %H:%M:%S')` when hour or minute is non-zero, otherwise
`strftime('%Y-%m-%d 00:00:00')` - which silently zeroes any seconds. -/

/-- SMA timestamp parse of `main_parallel_duckdb.py` (lines 282-286): try
`'%Y-%m-%d'` first, fall back to `'%Y-%m-%d %H:%M:%S'`. -/
def smaParseTsD (s : String) : Option DateTime :=
  match parseDate s with
  | some d => some d
  | none => parseDateTime s

/-- The `timestamp_str` computed at `main_parallel_duckdb.py` line 292
(Python truthiness: `if date_time_obj.hour or date_time_obj.minute`). -/
def duckdbTimestampStr (dt : DateTime) : String :=
  if dt.hour ≠ 0 ∨ dt.minute ≠ 0 then formatDateTime dt
  else formatDate dt ++ " 00:00:00"

/-- The `TIMESTAMP` column's cast of `duckdbTimestampStr dt`: the full
format round-trips, while the `'%Y-%m-%d 00:00:00'` branch (taken when hour
and minute are zero) zeroes the seconds. -/
def duckdbStoredTs (dt : DateTime) : DateTime :=
  if dt.hour ≠ 0 ∨ dt.minute ≠ 0 then dt else { dt with second := 0 }

/-- One iteration of the DuckDB SMA loop: note that the watermark comparison
uses the parsed `date_time_obj` while the stored string is the re-formatted
`timestamp_str`. -/
def smaEntryD (sym : String) : Option DateTime → String × FieldMap →
    Option (Row Decimal) :=
  entryOf smaParseTsD
    (fun _ d v => ((fieldLookup v "SMA").bind parseDecimal).map
      (fun q => ⟨sym, duckdbTimestampStr d, duckdbStoredTs d, q⟩))

/-- `process_sma_indicators` of `main_parallel_duckdb.py` lines 268-308. -/
def process_sma_indicators_duckdb (sym : String) (data : SeriesMap)
    (t : List (Row Decimal)) : List (Row Decimal) :=
  processTable (smaEntryD sym) sym data t

/-! ## Task layer (`main_parallel.py` lines 230-457) -/

/-- The whole database: the four tables created by `create_tables`. -/
structure DB where
  companies : List String
  daily : List (Row PriceFields)
  intraday : List (Row PriceFields)
  sma : List (Row Decimal)
deriving DecidableEq, Repr

/-- What one `requests.get(...).json()` call comes to: either a parsed JSON
body, or a `requests.RequestException` (network failure, timeout, or the
JSON-decode error raised by `response.json()`, all subclasses caught by
`fetch_api_data`). -/
inductive FetchResult where
  | ok (j : Json)
  | requestError (msg : String)
deriving DecidableEq, Repr

/-- `fetch_api_data` (lines 230-251): returns the response body, and
swallows any `RequestException` into an empty dict `{}`. -/
def fetch_api_data : FetchResult → Json
  | .ok j => j
  | .requestError _ => []

/-- The per-task result dict built by `process_symbol_endpoint`. -/
structure Outcome where
  symbol : String
  endpoint : String
  success : Bool
  message : JVal
deriving DecidableEq, Repr

/-- `json_data.get(key, {})` followed by iterating the result: a nested
object gives its entries; an absent key gives `{}`; a non-empty string value
would raise `AttributeError` on `.items()`, caught by the task's generic
handler (an empty string is falsy and returns early like `{}`). -/
def getSeries (json : Json) (k : String) : Except JVal SeriesMap :=
  match jsonLookup json k with
  | none => .ok []
  | some (.series m) => .ok m
  | some (.str s) => if s = "" then .ok [] else .error (.str "AttributeError")

/-- The endpoint dispatch of `process_symbol_endpoint` (lines 386-394),
threaded through the store state; `sf` injects a store fault into the one
`execute_batch` call the chosen branch may make. -/
def dispatchEndpoint (sf : Bool) (sym endpoint : String) (json : Json)
    (db : DB) : Except JVal DB :=
  if endpoint = "TIME_SERIES_DAILY" then
    (getSeries json "Time Series (Daily)").bind fun m =>
      (processTableE sf (dailyEntry sym) sym m db.daily).map fun t =>
        { db with daily := t }
  else if endpoint = "TIME_SERIES_INTRADAY" then
    (getSeries json "Time Series (5min)").bind fun m =>
      (processTableE sf (intradayEntry sym) sym m db.intraday).map fun t =>
        { db with intraday := t }
  else if endpoint = "SMA" then
    (getSeries json "Technical Analysis: SMA").bind fun m =>
      (processTableE sf (smaEntryP sym) sym m db.sma).map fun t =>
        { db with sma := t }
  else .ok db

/-- `process_symbol_endpoint` (lines 365-403): check for the API-level
`'Error Message'` and rate-limit `'Note'` keys (non-success outcome carrying
that value, nothing written), then process the endpoint's series; any
exception in processing is caught and folded into a failed outcome (the
store state is unchanged, as a failed batch was rolled back). -/
def process_symbol_endpoint (sf : Bool) (fetch : FetchResult)
    (sym endpoint : String) (db : DB) : Outcome × DB :=
  match jsonLookup (fetch_api_data fetch) "Error Message" with
  | some v => (⟨sym, endpoint, false, v⟩, db)
  | none =>
    match jsonLookup (fetch_api_data fetch) "Note" with
    | some v => (⟨sym, endpoint, false, v⟩, db)
    | none =>
      match dispatchEndpoint sf sym endpoint (fetch_api_data fetch) db with
      | .ok db' => (⟨sym, endpoint, true, .str "Processed successfully"⟩, db')
      | .error e => (⟨sym, endpoint, false, e⟩, db)

/-- `ensure_company_exists` (lines 221-227):
`INSERT INTO companies ... ON CONFLICT DO NOTHING`. -/
def ensure_company_exists (sym : String) (db : DB) : DB :=
  if sym ∈ db.companies then db
  else { db with companies := db.companies ++ [sym] }

/-- The task list of `run_parallel_etl` line 425:
`[(symbol, endpoint) for symbol in symbols for endpoint in endpoints]`. -/
def crossTasks : List String → List String → List (String × String)
  | [], _ => []
  | s :: rest, endpoints => endpoints.map (fun e => (s, e)) ++ crossTasks rest endpoints

/-- `run_parallel_etl` (lines 406-457).  Phase 1 inserts every company
(idempotently); then every (symbol, endpoint) task runs and its outcome is
collected as it completes.  Concurrency is modelled by executing the tasks
in an arbitrary completion order `sched` (the theorems quantify over every
permutation of the task list); `sf` says which tasks hit a store fault and
`F` is the fixed API response per task. -/
def run_parallel_etl (sf : String × String → Bool)
    (F : String × String → FetchResult) (symbols endpoints : List String)
    (sched : List (String × String)) (db : DB) : List Outcome × DB :=
  let db1 := symbols.foldl (fun d s => ensure_company_exists s d) db
  sched.foldl
    (fun acc p =>
      let r := process_symbol_endpoint (sf p) (F p) p.1 p.2 acc.2
      (acc.1 ++ [r.1], r.2))
    ([], db1)

/-- The store-state effect of one task of the run (the second component of
`process_symbol_endpoint`). -/
def stateStep (sf : String × String → Bool) (F : String × String → FetchResult)
    (db : DB) (p : String × String) : DB :=
  (process_symbol_endpoint (sf p) (F p) p.1 p.2 db).2

/-- The (symbol, endpoint) pair an outcome reports on. -/
def taskOf (o : Outcome) : String × String :=
  (o.symbol, o.endpoint)

/-- `successful = sum(1 for r in results if r['success'])` (line 453). -/
def successCount (rs : List Outcome) : Nat :=
  (rs.filter fun o => o.success).length

/-- `failed = len(results) - successful` (line 454). -/
def failedCount (rs : List Outcome) : Nat :=
  rs.length - successCount rs

end Etl

namespace MainPy

/-! ## The sequential PostgreSQL variant (`main.py`)

Its `execute_query` (lines 80-91) catches and logs every exception without
re-raising, and the connection runs with `autocommit`, so a failed statement
simply leaves the store unchanged. -/

open Etl

/-- `check_last_date` of `main.py` lines 94-107.  The first branch compares
against the misspelled literal `'daily_stock_pries'`, so the real daily
table name falls into the `else` branch, whose query selects
`MAX(date_time)` - a column the `daily_stock_prices` schema (lines 23-35)
does not have.  The resulting `psycopg2` error is swallowed by
`execute_query`, the subsequent `cursor.fetchone()` raises, and the
function's handler returns `None`; likewise any other unknown table name
errors out to `None`. -/
def check_last_date (sym table : String) (db : DB) : Option DateTime :=
  if table = "daily_stock_pries" then
    none
  else
    if table = "intraday_stock_prices" then lastTs sym db.intraday
    else if table = "sma_indicators" then lastTs sym db.sma
    else none

/-- `insert_daily_stock_prices` of `main.py` lines 109-128: parse the field
values (a `KeyError`/`ValueError` is caught by the function's own handler,
skipping the record), then execute a plain `INSERT`; a date-cast failure or
a primary-key conflict raised by the store is swallowed inside
`execute_query`, leaving the table unchanged. -/
def insert_daily_stock_prices (sym dateStr : String) (v : FieldMap)
    (db : DB) : DB :=
  match parsePriceFields v with
  | none => db
  | some f =>
    match parseDate dateStr with
    | none => db
    | some d =>
      if keyMem db.daily sym d then db
      else { db with daily := db.daily ++ [⟨sym, dateStr, d, f⟩] }

/-- The watermark-present loop of `update_daily_stock_prices` (lines
136-140): insert while the parsed date is strictly newer, `break` at the
first record at or below the watermark; a `strptime` failure propagates to
the function's outer handler, which stops the loop with the rows inserted
so far kept (autocommit). -/
def updateDailyLoop (sym : String) (L : DateTime) :
    SeriesMap → DB → DB
  | [], db => db
  | (k, v) :: rest, db =>
    match parseDate k with
    | none => db
    | some d =>
      if L.key < d.key then updateDailyLoop sym L rest (insert_daily_stock_prices sym k v db)
      else db

/-- `update_daily_stock_prices` of `main.py` lines 130-145. -/
def update_daily_stock_prices (sym : String) (data : SeriesMap)
    (table : String) (db : DB) : DB :=
  match check_last_date sym table db with
  | some L => updateDailyLoop sym L data db
  | none => data.foldl (fun d kv => insert_daily_stock_prices sym kv.1 kv.2 d) db

end MainPy

namespace Etl

/-! # Lemmas

General lemmas about the embedded definitions, followed by the claim
theorems at the end of the file. -/

theorem splitOnChar_ne_nil (c : Char) (l : List Char) : splitOnChar c l ≠ [] := by
  induction l with
  | nil => simp [splitOnChar]
  | cons x xs ih =>
    simp only [splitOnChar]
    cases h : splitOnChar c xs with
    | nil => simp
    | cons y ys =>
      by_cases hx : x = c <;> simp [hx]

theorem splitOnChar_of_not_mem {c : Char} {l : List Char} (h : c ∉ l) :
    splitOnChar c l = [l] := by
  induction l with
  | nil => rfl
  | cons x xs ih =>
    simp only [List.mem_cons, not_or] at h
    simp only [splitOnChar, ih h.2]
    rw [if_neg (fun hx => h.1 hx.symm)]

theorem mem_of_splitOnChar_two {c : Char} {l : List Char} {p q : List Char}
    {r : List (List Char)} (h : splitOnChar c l = p :: q :: r) : c ∈ l := by
  by_contra hc
  rw [splitOnChar_of_not_mem hc] at h
  simp at h

theorem mem_chunk_of_splitOnChar {c ch : Char} {l : List Char} (h : ch ∈ l) :
    ch = c ∨ ∃ p ∈ splitOnChar c l, ch ∈ p := by
  induction l with
  | nil => simp at h
  | cons x xs ih =>
    simp only [splitOnChar]
    cases hs : splitOnChar c xs with
    | nil => exact absurd hs (splitOnChar_ne_nil c xs)
    | cons y ys =>
      rcases List.mem_cons.mp h with rfl | hmem
      · by_cases hx : ch = c
        · exact Or.inl hx
        · right
          refine ⟨ch :: y, ?_, List.mem_cons_self ch y⟩
          simp [hx]
      · rcases ih hmem with hc | ⟨p, hp, hchp⟩
        · exact Or.inl hc
        · right
          rw [hs] at hp
          rcases List.mem_cons.mp hp with rfl | hp'
          · by_cases hx : x = c
            · exact ⟨p, by simp [hx], hchp⟩
            · exact ⟨x :: p, by simp [hx], List.mem_cons_of_mem x hchp⟩
          · by_cases hx : x = c
            · exact ⟨p, by simp [hx, hp'], hchp⟩
            · exact ⟨p, by simp [hx, hp'], hchp⟩

/-! ### The two formats accept disjoint sets of strings

A string that parses with `"%Y-%m-%d"` consists of digits and `'-'` only, so
it cannot contain the space that `"%Y-%m-%d %H:%M:%S"` requires, and
conversely. This is what makes the two variants' fallback orders agree. -/

theorem parseNatField_all_digits {lo hi : Nat} {l : List Char} {n : Nat}
    (h : parseNatField lo hi l = some n) : ∀ ch ∈ l, ch.isDigit := by
  unfold parseNatField at h
  split at h
  · rename_i hcond
    intro ch hch
    exact List.all_eq_true.mp hcond.2.2.2 ch hch
  · exact absurd h (by simp)

theorem parseDateChars_chars {l : List Char} {d : DateTime}
    (h : parseDateChars l = some d) : ∀ ch ∈ l, ch.isDigit ∨ ch = '-' := by
  unfold parseDateChars at h
  split at h
  · rename_i ys ms ds heq
    intro ch hch
    rcases mem_chunk_of_splitOnChar (c := '-') hch with hc | ⟨p, hp, hchp⟩
    · exact Or.inr hc
    · rw [heq] at hp
      simp only [Option.bind_eq_bind, Option.bind_eq_some] at h
      obtain ⟨y, hy, mo, hmo, dd, hdd, -⟩ := h
      rcases List.mem_cons.mp hp with rfl | hp'
      · exact Or.inl (parseNatField_all_digits hy ch hchp)
      rcases List.mem_cons.mp hp' with rfl | hp''
      · exact Or.inl (parseNatField_all_digits hmo ch hchp)
      rcases List.mem_cons.mp hp'' with rfl | hp'''
      · exact Or.inl (parseNatField_all_digits hdd ch hchp)
      · simp at hp'''
  · exact absurd h (by simp)

theorem parseDateChars_no_space {l : List Char} {d : DateTime}
    (h : parseDateChars l = some d) : ' ' ∉ l := by
  intro hmem
  rcases parseDateChars_chars h ' ' hmem with hd | hd <;> simp at hd

/-- A date-only string never parses with the full-timestamp format. -/
theorem parseDateTimeChars_of_parseDateChars {l : List Char} {d : DateTime}
    (h : parseDateChars l = some d) : parseDateTimeChars l = none := by
  unfold parseDateTimeChars
  rw [splitOnChar_of_not_mem (parseDateChars_no_space h)]

/-- A full-timestamp string never parses with the date-only format. -/
theorem parseDateChars_of_parseDateTimeChars {l : List Char} {d : DateTime}
    (h : parseDateTimeChars l = some d) : parseDateChars l = none := by
  unfold parseDateTimeChars at h
  cases hs : splitOnChar ' ' l with
  | nil => exact absurd hs (splitOnChar_ne_nil ' ' l)
  | cons p r =>
    rw [hs] at h
    cases r with
    | nil => simp at h
    | cons q r' =>
      cases r' with
      | cons _ _ => simp at h
      | nil =>
        cases hd : parseDateChars l with
        | none => rfl
        | some d' =>
          exact absurd hs (by
            rw [splitOnChar_of_not_mem (parseDateChars_no_space hd)]
            simp)

theorem parseDateTime_of_parseDate {s : String} {d : DateTime}
    (h : parseDate s = some d) : parseDateTime s = none :=
  parseDateTimeChars_of_parseDateChars h

theorem parseDate_of_parseDateTime {s : String} {d : DateTime}
    (h : parseDateTime s = some d) : parseDate s = none :=
  parseDateChars_of_parseDateTimeChars h

/-- Dates parsed with `"%Y-%m-%d"` sit at midnight. -/
theorem parseDateChars_midnight {l : List Char} {d : DateTime}
    (h : parseDateChars l = some d) : d.hour = 0 ∧ d.minute = 0 ∧ d.second = 0 := by
  unfold parseDateChars at h
  split at h
  · simp only [Option.bind_eq_bind, Option.bind_eq_some] at h
    obtain ⟨y, -, mo, -, dd, -, hfin⟩ := h
    split at hfin
    · cases hfin
      exact ⟨rfl, rfl, rfl⟩
    · exact absurd hfin (by simp)
  · exact absurd h (by simp)

theorem parseDate_midnight {s : String} {d : DateTime}
    (h : parseDate s = some d) : d.hour = 0 ∧ d.minute = 0 ∧ d.second = 0 :=
  parseDateChars_midnight h

theorem processTableE_false {α : Type}
    (mk : Option DateTime → String × FieldMap → Option (Row α))
    (sym : String) (data : SeriesMap) (t : List (Row α)) :
    processTableE false mk sym data t = .ok (processTable mk sym data t) := by
  unfold processTableE processTable
  by_cases h : data.isEmpty <;> simp [h]
  split <;> simp

/-! ### Watermark lemmas -/

theorem foldl_maxStep_some {α : Type} (l : List (Row α)) (L : DateTime) :
    ∃ L', l.foldl maxStep (some L) = some L' ∧ L.key ≤ L'.key := by
  induction l generalizing L with
  | nil => exact ⟨L, rfl, le_refl _⟩
  | cons r rest ih =>
    simp only [List.foldl_cons, maxStep]
    by_cases h : L.key < r.ts.key
    · rw [if_pos h]
      obtain ⟨L', hL', hle⟩ := ih r.ts
      exact ⟨L', hL', le_trans (le_of_lt h) hle⟩
    · rw [if_neg h]
      exact ih L

theorem foldl_maxStep_mem {α : Type} {l : List (Row α)} {r : Row α}
    (hmem : r ∈ l) (acc : Option DateTime) :
    ∃ L', l.foldl maxStep acc = some L' ∧ r.ts.key ≤ L'.key := by
  induction l generalizing acc with
  | nil => simp at hmem
  | cons x rest ih =>
    rcases List.mem_cons.mp hmem with rfl | hmem'
    · have hstep : ∃ m, maxStep acc r = some m ∧ r.ts.key ≤ m.key := by
        cases acc with
        | none => exact ⟨r.ts, rfl, le_refl _⟩
        | some a =>
          by_cases h : a.key < r.ts.key
          · exact ⟨r.ts, by simp [maxStep, h], le_refl _⟩
          · exact ⟨a, by simp [maxStep, h], le_of_not_lt h⟩
      obtain ⟨m, hm, hle⟩ := hstep
      simp only [List.foldl_cons, hm]
      obtain ⟨L', hL', hle'⟩ := foldl_maxStep_some rest m
      exact ⟨L', hL', le_trans hle hle'⟩
    · exact ih hmem' (maxStep acc x)

theorem maxTs_none_iff {α : Type} (rows : List (Row α)) :
    maxTs rows = none ↔ rows = [] := by
  constructor
  · intro h
    cases rows with
    | nil => rfl
    | cons r rest =>
      obtain ⟨L', hL', -⟩ := foldl_maxStep_mem (List.mem_cons_self r rest) none
      rw [maxTs] at h
      rw [h] at hL'
      exact absurd hL' (by simp)
  · intro h
    subst h
    rfl

theorem maxTs_mem {α : Type} {rows : List (Row α)} {r : Row α} (h : r ∈ rows) :
    ∃ L, maxTs rows = some L ∧ r.ts.key ≤ L.key :=
  foldl_maxStep_mem h none

theorem maxTs_append_mono {α : Type} {rows : List (Row α)} {L : DateTime}
    (h : maxTs rows = some L) (ex : List (Row α)) :
    ∃ L', maxTs (rows ++ ex) = some L' ∧ L.key ≤ L'.key := by
  unfold maxTs at h ⊢
  rw [List.foldl_append, h]
  exact foldl_maxStep_some ex L

theorem rowsOf_append {α : Type} (sym : String) (t ex : List (Row α)) :
    rowsOf sym (t ++ ex) = rowsOf sym t ++ rowsOf sym ex := by
  unfold rowsOf
  exact List.filter_append t ex

theorem rowsOf_append_other {α : Type} {sym : String} {ex : List (Row α)}
    (t : List (Row α)) (h : ∀ r ∈ ex, r.symbol ≠ sym) :
    rowsOf sym (t ++ ex) = rowsOf sym t := by
  rw [rowsOf_append]
  have : rowsOf sym ex = [] := by
    apply List.filter_eq_nil_iff.mpr
    intro r hr
    simpa using h r hr
  rw [this, List.append_nil]

theorem lastTs_congr {α : Type} {sym : String} {t t' : List (Row α)}
    (h : rowsOf sym t' = rowsOf sym t) : lastTs sym t' = lastTs sym t := by
  unfold lastTs
  rw [h]

theorem lastTs_none_iff {α : Type} (sym : String) (t : List (Row α)) :
    lastTs sym t = none ↔ rowsOf sym t = [] :=
  maxTs_none_iff _

theorem lastTs_mem {α : Type} {sym : String} {t : List (Row α)} {r : Row α}
    (hmem : r ∈ t) (hsym : r.symbol = sym) :
    ∃ L, lastTs sym t = some L ∧ r.ts.key ≤ L.key := by
  apply maxTs_mem
  exact List.mem_filter.mpr ⟨hmem, by simp [hsym]⟩

theorem lastTs_keyMem {α : Type} {sym : String} {t : List (Row α)} {d : DateTime}
    (h : keyMem t sym d) : ∃ L, lastTs sym t = some L ∧ d.key ≤ L.key := by
  obtain ⟨r, hr, hsym, hts⟩ := h
  obtain ⟨L, hL, hle⟩ := lastTs_mem hr hsym
  exact ⟨L, hL, hts ▸ hle⟩

theorem lastTs_append_mono {α : Type} {sym : String} {t : List (Row α)}
    {L : DateTime} (h : lastTs sym t = some L) (ex : List (Row α)) :
    ∃ L', lastTs sym (t ++ ex) = some L' ∧ L.key ≤ L'.key := by
  unfold lastTs at h ⊢
  rw [rowsOf_append]
  exact maxTs_append_mono h _

theorem not_keyMem_of_gt_lastTs {α : Type} {sym : String} {t : List (Row α)}
    {L d : DateTime} (h : lastTs sym t = some L) (hgt : L.key < d.key) :
    ¬ keyMem t sym d := by
  intro hk
  obtain ⟨L', hL', hle⟩ := lastTs_keyMem hk
  rw [h] at hL'
  cases hL'
  exact absurd hle (not_le_of_lt hgt)

theorem not_keyMem_of_rowsOf_nil {α : Type} {sym : String} {t : List (Row α)}
    (h : rowsOf sym t = []) (d : DateTime) : ¬ keyMem t sym d := by
  rintro ⟨r, hr, hsym, -⟩
  have : r ∈ rowsOf sym t := List.mem_filter.mpr ⟨hr, by simp [hsym]⟩
  rw [h] at this
  simp at this

/-! ### Batched insert-or-ignore lemmas -/

theorem keyMem_append_left {α : Type} {t : List (Row α)} {sym : String}
    {d : DateTime} (h : keyMem t sym d) (ex : List (Row α)) :
    keyMem (t ++ ex) sym d := by
  obtain ⟨r, hr, hp⟩ := h
  exact ⟨r, List.mem_append_left ex hr, hp⟩

theorem keyMem_append_iff {α : Type} (t ex : List (Row α)) (sym : String)
    (d : DateTime) :
    keyMem (t ++ ex) sym d ↔ keyMem t sym d ∨ keyMem ex sym d := by
  constructor
  · rintro ⟨r, hr, hp⟩
    rcases List.mem_append.mp hr with h | h
    · exact Or.inl ⟨r, h, hp⟩
    · exact Or.inr ⟨r, h, hp⟩
  · rintro (⟨r, hr, hp⟩ | ⟨r, hr, hp⟩)
    · exact ⟨r, List.mem_append_left ex hr, hp⟩
    · exact ⟨r, List.mem_append_right t hr, hp⟩

/-- A batch only appends rows, all of them drawn from the batch list. -/
theorem insertBatch_append {α : Type} (t : List (Row α)) (rs : List (Row α)) :
    ∃ ex, insertBatch t rs = t ++ ex ∧ ∀ r ∈ ex, r ∈ rs := by
  induction rs generalizing t with
  | nil => exact ⟨[], by simp [insertBatch], by simp⟩
  | cons r rest ih =>
    show ∃ ex, insertBatch (insertOrIgnore t r) rest = t ++ ex ∧ _
    unfold insertOrIgnore
    split
    · obtain ⟨ex, hex, hmem⟩ := ih t
      exact ⟨ex, hex, fun x hx => List.mem_cons_of_mem r (hmem x hx)⟩
    · obtain ⟨ex, hex, hmem⟩ := ih (t ++ [r])
      refine ⟨[r] ++ ex, by rw [hex, List.append_assoc], ?_⟩
      intro x hx
      rcases List.mem_append.mp hx with h | h
      · simp only [List.mem_singleton] at h
        exact h ▸ List.mem_cons_self r rest
      · exact List.mem_cons_of_mem r (hmem x h)

/-- After a batch, every key from the batch is present in the table. -/
theorem insertBatch_keyMem {α : Type} {rs : List (Row α)} {r : Row α}
    (hmem : r ∈ rs) (t : List (Row α)) :
    keyMem (insertBatch t rs) r.symbol r.ts := by
  induction rs generalizing t with
  | nil => simp at hmem
  | cons x rest ih =>
    show keyMem (insertBatch (insertOrIgnore t x) rest) _ _
    rcases List.mem_cons.mp hmem with rfl | hmem'
    · have hkey : keyMem (insertOrIgnore t r) r.symbol r.ts := by
        unfold insertOrIgnore
        split
        · assumption
        · exact ⟨r, List.mem_append_right t (List.mem_singleton_self r), rfl, rfl⟩
      obtain ⟨ex, hex, -⟩ := insertBatch_append (insertOrIgnore t r) rest
      rw [hex]
      exact keyMem_append_left hkey ex
    · exact ih hmem' (insertOrIgnore t x)

/-- A batch whose keys are fresh and pairwise distinct appends exactly the
batch list. -/
theorem insertBatch_fresh {α : Type} {rs : List (Row α)} {t : List (Row α)}
    (hnodup : (rs.map (fun r => r.ts)).Nodup)
    (hfresh : ∀ r ∈ rs, ¬ keyMem t r.symbol r.ts) :
    insertBatch t rs = t ++ rs := by
  induction rs generalizing t with
  | nil => simp [insertBatch]
  | cons r rest ih =>
    show insertBatch (insertOrIgnore t r) rest = _
    have hni : insertOrIgnore t r = t ++ [r] := by
      unfold insertOrIgnore
      rw [if_neg (hfresh r (List.mem_cons_self r rest))]
    rw [hni]
    have hnodup' : (rest.map (fun r => r.ts)).Nodup := (List.nodup_cons.mp hnodup).2
    have hhead : r.ts ∉ rest.map (fun r => r.ts) := (List.nodup_cons.mp hnodup).1
    have hfresh' : ∀ x ∈ rest, ¬ keyMem (t ++ [r]) x.symbol x.ts := by
      intro x hx hk
      rcases (keyMem_append_iff t [r] x.symbol x.ts).mp hk with h | h
      · exact hfresh x (List.mem_cons_of_mem r hx) h
      · obtain ⟨y, hy, hys, hyt⟩ := h
        simp only [List.mem_singleton] at hy
        subst hy
        exact hhead (hyt ▸ List.mem_map_of_mem (fun r => r.ts) hx)
    rw [ih hnodup' hfresh', List.append_assoc]
    rfl

/-- A batch that leaves the table unchanged had all its keys present. -/
theorem insertBatch_eq_self {α : Type} {t : List (Row α)} {rs : List (Row α)}
    (h : insertBatch t rs = t) : ∀ r ∈ rs, keyMem t r.symbol r.ts := by
  induction rs generalizing t with
  | nil => simp
  | cons r rest ih =>
    have hstep : insertBatch (insertOrIgnore t r) rest = t := h
    have hio : insertOrIgnore t r = t := by
      obtain ⟨ex, hex, -⟩ := insertBatch_append (insertOrIgnore t r) rest
      rw [hex] at hstep
      unfold insertOrIgnore at hex hstep ⊢
      split at hstep
      · rw [if_pos (by assumption)]
      · exfalso
        have := congrArg List.length hstep
        simp at this
    have hkey : keyMem t r.symbol r.ts := by
      by_contra hk
      unfold insertOrIgnore at hio
      rw [if_neg hk] at hio
      have := congrArg List.length hio
      simp at this
    intro x hx
    rcases List.mem_cons.mp hx with rfl | hx'
    · exact hkey
    · have hrest : insertBatch t rest = t := by
        rw [hio] at hstep
        exact hstep
      exact ih hrest x hx'

/-- A batch all of whose keys are already present is a no-op. -/
theorem insertBatch_all_mem {α : Type} {t : List (Row α)} {rs : List (Row α)}
    (h : ∀ r ∈ rs, keyMem t r.symbol r.ts) : insertBatch t rs = t := by
  induction rs with
  | nil => rfl
  | cons r rest ih =>
    show insertBatch (insertOrIgnore t r) rest = t
    have hio : insertOrIgnore t r = t := by
      unfold insertOrIgnore
      rw [if_pos (h r (List.mem_cons_self r rest))]
    rw [hio]
    exact ih fun x hx => h x (List.mem_cons_of_mem r hx)

theorem keyMem_congr {α : Type} {sym : String} {t t' : List (Row α)}
    {d : DateTime} (hrows : rowsOf sym t' = rowsOf sym t)
    (h : keyMem t sym d) : keyMem t' sym d := by
  obtain ⟨r, hr, hsym, hts⟩ := h
  have : r ∈ rowsOf sym t' := hrows ▸ List.mem_filter.mpr ⟨hr, by simp [hsym]⟩
  exact ⟨r, (List.mem_filter.mp this).1, hsym, hts⟩

/-! ### Record-builder properties

All loop bodies of the parallel variants have the `entryOf` shape with a
`build` that stamps the processed symbol on the row and stores the parsed
timestamp as the row's key timestamp. -/

/-- The row builder stamps the symbol and keys the row by the timestamp it
was given (true of the daily, intraday and parallel-SMA builders). -/
def goodBuild {α : Type} (sym : String)
    (build : String → DateTime → FieldMap → Option (Row α)) : Prop :=
  ∀ k d v r, build k d v = some r → r.symbol = sym ∧ r.ts = d

theorem goodBuild_daily (sym : String) :
    goodBuild sym
      (fun k d v => (parsePriceFields v).map (fun f => ⟨sym, k, d, f⟩)) := by
  intro k d v r h
  simp only [Option.map_eq_some'] at h
  obtain ⟨f, -, hr⟩ := h
  rw [← hr]
  exact ⟨rfl, rfl⟩

theorem goodBuild_smaP (sym : String) :
    goodBuild sym
      (fun k d v =>
        ((fieldLookup v "SMA").bind parseDecimal).map (fun q => ⟨sym, k, d, q⟩)) := by
  intro k d v r h
  simp only [Option.map_eq_some'] at h
  obtain ⟨q, -, hr⟩ := h
  rw [← hr]
  exact ⟨rfl, rfl⟩

theorem entryOf_none_ts {α : Type} {parseTs : String → Option DateTime}
    {build : String → DateTime → FieldMap → Option (Row α)}
    {kv : String × FieldMap} (l : Option DateTime)
    (hp : parseTs kv.1 = none) : entryOf parseTs build l kv = none := by
  unfold entryOf
  rw [hp]

theorem entryOf_some_ts {α : Type} {parseTs : String → Option DateTime}
    {build : String → DateTime → FieldMap → Option (Row α)}
    {kv : String × FieldMap} {d : DateTime} (l : Option DateTime)
    (hp : parseTs kv.1 = some d) :
    entryOf parseTs build l kv =
      if belowWatermark l d then none else build kv.1 d kv.2 := by
  unfold entryOf
  rw [hp]

theorem entryOf_symbol {α : Type} {sym : String}
    {parseTs : String → Option DateTime}
    {build : String → DateTime → FieldMap → Option (Row α)}
    (hb : goodBuild sym build) {l : Option DateTime} {kv : String × FieldMap}
    {r : Row α} (h : entryOf parseTs build l kv = some r) : r.symbol = sym := by
  cases hp : parseTs kv.1 with
  | none => rw [entryOf_none_ts l hp] at h; simp at h
  | some d =>
    rw [entryOf_some_ts l hp] at h
    split at h
    · simp at h
    · exact (hb _ _ _ _ h).1

theorem entryOf_ts {α : Type} {sym : String}
    {parseTs : String → Option DateTime}
    {build : String → DateTime → FieldMap → Option (Row α)}
    (hb : goodBuild sym build) {l : Option DateTime} {kv : String × FieldMap}
    {r : Row α} (h : entryOf parseTs build l kv = some r) :
    parseTs kv.1 = some r.ts := by
  cases hp : parseTs kv.1 with
  | none => rw [entryOf_none_ts l hp] at h; simp at h
  | some d =>
    rw [entryOf_some_ts l hp] at h
    split at h
    · simp at h
    · rw [(hb _ _ _ _ h).2]

/-- A record accepted under some watermark is skipped under any watermark at
or above its own timestamp. -/
theorem entryOf_skip_ge {α : Type} {sym : String}
    {parseTs : String → Option DateTime}
    {build : String → DateTime → FieldMap → Option (Row α)}
    (hb : goodBuild sym build) {l : Option DateTime} {kv : String × FieldMap}
    {r : Row α} {L' : DateTime} (h : entryOf parseTs build l kv = some r)
    (hle : r.ts.key ≤ L'.key) : entryOf parseTs build (some L') kv = none := by
  have hts := entryOf_ts hb h
  rw [entryOf_some_ts (some L') hts]
  rw [if_pos (by simp [belowWatermark, hle])]

/-- A record skipped under a watermark stays skipped under any watermark at
or above it (and a record invalid without a watermark is invalid always). -/
theorem entryOf_none_mono {α : Type}
    {parseTs : String → Option DateTime}
    {build : String → DateTime → FieldMap → Option (Row α)}
    {o : Option DateTime} {kv : String × FieldMap} {L' : DateTime}
    (h : entryOf parseTs build o kv = none)
    (hle : ∀ L, o = some L → L.key ≤ L'.key) :
    entryOf parseTs build (some L') kv = none := by
  cases hp : parseTs kv.1 with
  | none => exact entryOf_none_ts _ hp
  | some d =>
    rw [entryOf_some_ts o hp] at h
    rw [entryOf_some_ts (some L') hp]
    by_cases hb2 : belowWatermark (some L') d = true
    · rw [if_pos hb2]
    · rw [if_neg hb2]
      cases o with
      | none =>
        rw [show belowWatermark none d = false from rfl] at h
        simpa using h
      | some L =>
        by_cases hbl : belowWatermark (some L) d = true
        · exfalso
          apply hb2
          simp only [belowWatermark, decide_eq_true_eq] at hbl ⊢
          exact le_trans hbl (hle L rfl)
        · rw [Bool.not_eq_true] at hbl
          rw [hbl] at h
          simpa using h

/-- Filtering against a watermark commutes with building the unfiltered
record: the record under watermark `T` is the unfiltered record kept only
when strictly newer than `T`. -/
theorem entryOf_filter {α : Type} {sym : String}
    {parseTs : String → Option DateTime}
    {build : String → DateTime → FieldMap → Option (Row α)}
    (hb : goodBuild sym build) (T : DateTime) (kv : String × FieldMap) :
    entryOf parseTs build (some T) kv =
      (entryOf parseTs build none kv).bind
        (fun r => if T.key < r.ts.key then some r else none) := by
  cases hp : parseTs kv.1 with
  | none => rw [entryOf_none_ts _ hp, entryOf_none_ts _ hp]; rfl
  | some d =>
    rw [entryOf_some_ts _ hp, entryOf_some_ts _ hp]
    rw [show belowWatermark none d = false from rfl]
    simp only [Bool.false_eq_true, if_false]
    by_cases hbl : belowWatermark (some T) d = true
    · rw [if_pos hbl]
      simp only [belowWatermark, decide_eq_true_eq] at hbl
      cases hbd : build kv.1 d kv.2 with
      | none => rfl
      | some r =>
        have hts := (hb _ _ _ _ hbd).2
        simp only [Option.some_bind]
        rw [if_neg (by rw [hts]; exact not_lt_of_le hbl)]
    · rw [if_neg hbl]
      simp only [belowWatermark, decide_eq_true_eq, Bool.not_eq_true,
        decide_eq_false_iff_not] at hbl
      have hlt : T.key < d.key := lt_of_not_le hbl
      cases hbd : build kv.1 d kv.2 with
      | none => rfl
      | some r =>
        have hts := (hb _ _ _ _ hbd).2
        simp only [Option.some_bind]
        rw [if_pos (by rw [hts]; exact hlt)]

/-! ### Incremental-writer lemmas

These are stated for an arbitrary loop body `mk`, with the properties proved
above for `entryOf` bodies as hypotheses. -/

/-- Unfolded form of `processTable`. -/
theorem processTable_eq {α : Type}
    (mk : Option DateTime → String × FieldMap → Option (Row α))
    (sym : String) (data : SeriesMap) (t : List (Row α)) :
    processTable mk sym data t =
      if data.isEmpty then t
      else if (data.filterMap (mk (lastTs sym t))).isEmpty then t
      else insertBatch t (data.filterMap (mk (lastTs sym t))) := rfl

/-- Keeping only the `some`s of an if-filter is a plain filter. -/
theorem filterMap_ite_eq_filter {α : Type} (p : α → Prop) [DecidablePred p]
    (l : List α) :
    l.filterMap (fun x => if p x then some x else none) =
      l.filter (fun x => decide (p x)) := by
  induction l with
  | nil => rfl
  | cons x xs ih =>
    by_cases h : p x <;>
      simp [List.filterMap_cons, List.filter_cons, h, ih]

/-- When every record is skipped or invalid the writer leaves the table
unchanged (the `values_list` is empty and no insert is issued). -/
theorem processTable_of_all_none {α : Type}
    {mk : Option DateTime → String × FieldMap → Option (Row α)}
    {sym : String} {data : SeriesMap} {t : List (Row α)}
    (h : ∀ kv ∈ data, mk (lastTs sym t) kv = none) :
    processTable mk sym data t = t := by
  rw [processTable_eq]
  by_cases hd : data.isEmpty
  · rw [if_pos hd]
  · rw [if_neg hd]
    have hnil : data.filterMap (mk (lastTs sym t)) = [] :=
      List.filterMap_eq_nil_iff.mpr h
    simp [hnil]

/-- The writer only appends rows, each produced by the loop body from some
record of the payload. -/
theorem processTable_append {α : Type}
    (mk : Option DateTime → String × FieldMap → Option (Row α))
    (sym : String) (data : SeriesMap) (t : List (Row α)) :
    ∃ ex, processTable mk sym data t = t ++ ex ∧
      ∀ r ∈ ex, ∃ kv ∈ data, mk (lastTs sym t) kv = some r := by
  rw [processTable_eq]
  by_cases hd : data.isEmpty
  · exact ⟨[], by rw [if_pos hd, List.append_nil], by simp⟩
  · rw [if_neg hd]
    by_cases hvl : (data.filterMap (mk (lastTs sym t))).isEmpty
    · exact ⟨[], by rw [if_pos hvl, List.append_nil], by simp⟩
    · rw [if_neg hvl]
      obtain ⟨ex, hex, hmem⟩ := insertBatch_append t (data.filterMap (mk (lastTs sym t)))
      exact ⟨ex, hex, fun r hr => List.mem_filterMap.mp (hmem r hr)⟩

/-- With no rows for the symbol yet (no watermark), the writer appends
exactly the valid records of the payload, in payload order. -/
theorem processTable_char_none {α : Type} {sym : String}
    {mk : Option DateTime → String × FieldMap → Option (Row α)}
    (Hsym : ∀ l kv r, mk l kv = some r → r.symbol = sym)
    {data : SeriesMap} {t : List (Row α)}
    (hrows : rowsOf sym t = [])
    (Hnodup : ((data.filterMap (mk none)).map (fun r => r.ts)).Nodup) :
    processTable mk sym data t = t ++ data.filterMap (mk none) := by
  have hlast : lastTs sym t = none := (lastTs_none_iff sym t).mpr hrows
  rw [processTable_eq, hlast]
  by_cases hd : data.isEmpty
  · rw [if_pos hd]
    rw [List.isEmpty_iff] at hd
    simp [hd]
  · rw [if_neg hd]
    by_cases hvl : (data.filterMap (mk none)).isEmpty
    · rw [if_pos hvl]
      rw [List.isEmpty_iff] at hvl
      simp [hvl]
    · rw [if_neg hvl]
      apply insertBatch_fresh Hnodup
      intro r hr
      obtain ⟨kv, -, hkv⟩ := List.mem_filterMap.mp hr
      rw [Hsym _ _ _ hkv]
      exact not_keyMem_of_rowsOf_nil hrows r.ts

/-- With a watermark `T`, the writer appends exactly the valid records that
are strictly newer than `T`, in payload order - even when the payload
interleaves old and new timestamps. -/
theorem processTable_char_some {α : Type} {sym : String}
    {mk : Option DateTime → String × FieldMap → Option (Row α)}
    (Hsym : ∀ l kv r, mk l kv = some r → r.symbol = sym)
    (Hfilter : ∀ T kv, mk (some T) kv =
      (mk none kv).bind (fun r => if T.key < r.ts.key then some r else none))
    {data : SeriesMap} {t : List (Row α)} {T : DateTime}
    (hlast : lastTs sym t = some T)
    (Hnodup : ((data.filterMap (mk none)).map (fun r => r.ts)).Nodup) :
    processTable mk sym data t =
      t ++ (data.filterMap (mk none)).filter (fun r => decide (T.key < r.ts.key)) := by
  have hvl : data.filterMap (mk (some T)) =
      (data.filterMap (mk none)).filter (fun r => decide (T.key < r.ts.key)) := by
    rw [← filterMap_ite_eq_filter (fun r => T.key < r.ts.key) (data.filterMap (mk none))]
    rw [List.filterMap_filterMap]
    exact List.filterMap_congr fun kv _ => Hfilter T kv
  rw [processTable_eq, hlast, hvl]
  by_cases hd : data.isEmpty
  · rw [if_pos hd]
    rw [List.isEmpty_iff] at hd
    subst hd
    simp [hvl.symm]
  · rw [if_neg hd]
    by_cases hfe : ((data.filterMap (mk none)).filter
        (fun r => decide (T.key < r.ts.key))).isEmpty
    · rw [if_pos hfe]
      rw [List.isEmpty_iff] at hfe
      rw [hfe, List.append_nil]
    · rw [if_neg hfe]
      apply insertBatch_fresh
      · exact List.Nodup.sublist
          (List.Sublist.map (fun r : Row α => r.ts) (List.filter_sublist _)) Hnodup
      · intro r hr
        have hmf := List.mem_filter.mp hr
        have hgt : T.key < r.ts.key := of_decide_eq_true hmf.2
        obtain ⟨kv, -, hkv⟩ := List.mem_filterMap.mp hmf.1
        rw [Hsym _ _ _ hkv]
        exact not_keyMem_of_gt_lastTs hlast hgt

/-- Any record the loop accepts ends up (keyed) in the written table. -/
theorem processTable_keyMem {α : Type}
    {mk : Option DateTime → String × FieldMap → Option (Row α)}
    {sym : String} {data : SeriesMap} {t : List (Row α)}
    {kv : String × FieldMap} {r : Row α}
    (hkv : kv ∈ data) (hr : mk (lastTs sym t) kv = some r) :
    keyMem (processTable mk sym data t) r.symbol r.ts := by
  have hrvl : r ∈ data.filterMap (mk (lastTs sym t)) :=
    List.mem_filterMap.mpr ⟨kv, hkv, hr⟩
  rw [processTable_eq]
  by_cases hd : data.isEmpty
  · rw [List.isEmpty_iff] at hd
    subst hd
    simp at hkv
  · rw [if_neg hd]
    by_cases hvl : (data.filterMap (mk (lastTs sym t))).isEmpty
    · rw [List.isEmpty_iff] at hvl
      rw [hvl] at hrvl
      simp at hrvl
    · rw [if_neg hvl]
      exact insertBatch_keyMem hrvl t

/-- Re-running a `process_*` function on its own output writes nothing new:
every record is now at or below the advanced watermark, already keyed in the
table, or still invalid. -/
theorem processTable_idem {α : Type} {sym : String}
    {mk : Option DateTime → String × FieldMap → Option (Row α)}
    (Hsym : ∀ l kv r, mk l kv = some r → r.symbol = sym)
    (Hskip : ∀ l kv r L', mk l kv = some r → r.ts.key ≤ L'.key →
      mk (some L') kv = none)
    (Hnone : ∀ o kv L', mk o kv = none → (∀ L, o = some L → L.key ≤ L'.key) →
      mk (some L') kv = none)
    (data : SeriesMap) (t : List (Row α)) :
    processTable mk sym data (processTable mk sym data t) =
      processTable mk sym data t := by
  obtain ⟨ex, hex, -⟩ := processTable_append mk sym data t
  apply processTable_of_all_none
  intro kv hkv
  cases hL' : lastTs sym (processTable mk sym data t) with
  | none =>
    have hrows' : rowsOf sym (processTable mk sym data t) = [] :=
      (lastTs_none_iff _ _).mp hL'
    have hrows : rowsOf sym t = [] := by
      rw [hex, rowsOf_append] at hrows'
      exact (List.append_eq_nil.mp hrows').1
    have hlt : lastTs sym t = none := (lastTs_none_iff _ _).mpr hrows
    cases hmk : mk none kv with
    | none => rfl
    | some r =>
      exfalso
      have hkm : keyMem (processTable mk sym data t) r.symbol r.ts :=
        processTable_keyMem hkv (by rw [hlt]; exact hmk)
      rw [Hsym _ _ _ hmk] at hkm
      exact not_keyMem_of_rowsOf_nil hrows' r.ts hkm
  | some L' =>
    cases hmk : mk (lastTs sym t) kv with
    | some r =>
      have hkm : keyMem (processTable mk sym data t) r.symbol r.ts :=
        processTable_keyMem hkv hmk
      rw [Hsym _ _ _ hmk] at hkm
      obtain ⟨M, hM, hle⟩ := lastTs_keyMem hkm
      rw [hL'] at hM
      cases hM
      exact Hskip _ _ _ _ hmk hle
    | none =>
      apply Hnone _ _ _ hmk
      intro L hLt
      obtain ⟨M, hM, hle⟩ := lastTs_append_mono hLt ex
      rw [← hex, hL'] at hM
      cases hM
      exact hle

/-- A `process_*` call that is a no-op stays a no-op on any table holding
the same rows for its symbol (rows for other symbols are irrelevant). -/
theorem processTable_transfer {α : Type} {sym : String}
    {mk : Option DateTime → String × FieldMap → Option (Row α)}
    (Hsym : ∀ l kv r, mk l kv = some r → r.symbol = sym)
    {data : SeriesMap} {t t' : List (Row α)}
    (h : processTable mk sym data t = t)
    (hrows : rowsOf sym t' = rowsOf sym t) :
    processTable mk sym data t' = t' := by
  rw [processTable_eq] at h ⊢
  have hlast : lastTs sym t' = lastTs sym t := lastTs_congr hrows
  rw [hlast]
  by_cases hd : data.isEmpty
  · rw [if_pos hd]
  · rw [if_neg hd] at h ⊢
    by_cases hvl : (data.filterMap (mk (lastTs sym t))).isEmpty
    · rw [if_pos hvl]
    · rw [if_neg hvl] at h ⊢
      have hmem := insertBatch_eq_self h
      apply insertBatch_all_mem
      intro r hr
      have hks := hmem r hr
      obtain ⟨kv, -, hkv⟩ := List.mem_filterMap.mp hr
      rw [Hsym _ _ _ hkv] at hks ⊢
      exact keyMem_congr hrows hks

/-! ### The three parallel loop bodies satisfy the writer hypotheses -/

theorem dailyEntry_symbol {sym : String} {l : Option DateTime}
    {kv : String × FieldMap} {r : Row PriceFields}
    (h : dailyEntry sym l kv = some r) : r.symbol = sym :=
  entryOf_symbol (goodBuild_daily sym) h

theorem intradayEntry_symbol {sym : String} {l : Option DateTime}
    {kv : String × FieldMap} {r : Row PriceFields}
    (h : intradayEntry sym l kv = some r) : r.symbol = sym :=
  entryOf_symbol (goodBuild_daily sym) h

theorem smaEntryP_symbol {sym : String} {l : Option DateTime}
    {kv : String × FieldMap} {r : Row Decimal}
    (h : smaEntryP sym l kv = some r) : r.symbol = sym :=
  entryOf_symbol (goodBuild_smaP sym) h

theorem process_daily_idem (sym : String) (data : SeriesMap)
    (t : List (Row PriceFields)) :
    process_daily_stock_prices sym data (process_daily_stock_prices sym data t) =
      process_daily_stock_prices sym data t := by
  unfold process_daily_stock_prices
  exact @processTable_idem PriceFields sym (dailyEntry sym)
    (fun _ _ _ h => dailyEntry_symbol h)
    (fun _ _ _ L' h hle => entryOf_skip_ge (goodBuild_daily sym) h hle)
    (fun _ _ L' h hle => entryOf_none_mono h hle) data t

theorem process_intraday_idem (sym : String) (data : SeriesMap)
    (t : List (Row PriceFields)) :
    process_intraday_stock_prices sym data
        (process_intraday_stock_prices sym data t) =
      process_intraday_stock_prices sym data t := by
  unfold process_intraday_stock_prices
  exact @processTable_idem PriceFields sym (intradayEntry sym)
    (fun _ _ _ h => intradayEntry_symbol h)
    (fun _ _ _ L' h hle => entryOf_skip_ge (goodBuild_daily sym) h hle)
    (fun _ _ L' h hle => entryOf_none_mono h hle) data t

theorem process_sma_idem (sym : String) (data : SeriesMap)
    (t : List (Row Decimal)) :
    process_sma_indicators sym data (process_sma_indicators sym data t) =
      process_sma_indicators sym data t := by
  unfold process_sma_indicators
  exact @processTable_idem Decimal sym (smaEntryP sym)
    (fun _ _ _ h => smaEntryP_symbol h)
    (fun _ _ _ L' h hle => entryOf_skip_ge (goodBuild_smaP sym) h hle)
    (fun _ _ L' h hle => entryOf_none_mono h hle) data t

/-! ### Task-level lemmas -/

/-- Every return path of `process_symbol_endpoint` stamps the task's symbol
and endpoint on the outcome. -/
theorem pse_outcome_fields (sf : Bool) (fetch : FetchResult)
    (sym endpoint : String) (db : DB) :
    (process_symbol_endpoint sf fetch sym endpoint db).1.symbol = sym ∧
      (process_symbol_endpoint sf fetch sym endpoint db).1.endpoint = endpoint := by
  unfold process_symbol_endpoint
  cases jsonLookup (fetch_api_data fetch) "Error Message" with
  | some v => exact ⟨rfl, rfl⟩
  | none =>
    cases jsonLookup (fetch_api_data fetch) "Note" with
    | some v => exact ⟨rfl, rfl⟩
    | none =>
      cases dispatchEndpoint sf sym endpoint (fetch_api_data fetch) db with
      | ok db' => exact ⟨rfl, rfl⟩
      | error e => exact ⟨rfl, rfl⟩

/-- The state part of `process_symbol_endpoint`, spelled as a chain of the
error-check shortcuts followed by the dispatch. -/
theorem stateStep_eq (sf : String × String → Bool)
    (F : String × String → FetchResult) (db : DB) (p : String × String) :
    stateStep sf F db p =
      match jsonLookup (fetch_api_data (F p)) "Error Message" with
      | some _ => db
      | none =>
        match jsonLookup (fetch_api_data (F p)) "Note" with
        | some _ => db
        | none =>
          match dispatchEndpoint (sf p) p.1 p.2 (fetch_api_data (F p)) db with
          | .ok db' => db'
          | .error _ => db := by
  unfold stateStep process_symbol_endpoint
  cases jsonLookup (fetch_api_data (F p)) "Error Message" with
  | some v => rfl
  | none =>
    cases jsonLookup (fetch_api_data (F p)) "Note" with
    | some v => rfl
    | none =>
      cases dispatchEndpoint (sf p) p.1 p.2 (fetch_api_data (F p)) db with
      | ok db' => rfl
      | error e => rfl

/-- The run's final store state is the fold of `stateStep` over the
completion order, starting after the company phase. -/
theorem run_snd (sf : String × String → Bool)
    (F : String × String → FetchResult) (symbols endpoints : List String)
    (sched : List (String × String)) (db : DB) :
    (run_parallel_etl sf F symbols endpoints sched db).2 =
      sched.foldl (stateStep sf F)
        (symbols.foldl (fun d s => ensure_company_exists s d) db) := by
  unfold run_parallel_etl
  generalize (symbols.foldl (fun d s => ensure_company_exists s d) db) = db1
  suffices h : ∀ (sched : List (String × String)) (acc : List Outcome) (d : DB),
      (sched.foldl
        (fun acc p =>
          let r := process_symbol_endpoint (sf p) (F p) p.1 p.2 acc.2
          (acc.1 ++ [r.1], r.2)) (acc, d)).2 = sched.foldl (stateStep sf F) d by
    exact h sched [] db1
  intro sched
  induction sched with
  | nil => intro acc d; rfl
  | cons p rest ih => intro acc d; exact ih _ _

/-- The run reports one outcome per scheduled task, tagged with that task's
(symbol, endpoint), in completion order. -/
theorem run_fst_taskOf (sf : String × String → Bool)
    (F : String × String → FetchResult) (symbols endpoints : List String)
    (sched : List (String × String)) (db : DB) :
    (run_parallel_etl sf F symbols endpoints sched db).1.map taskOf = sched := by
  unfold run_parallel_etl
  generalize (symbols.foldl (fun d s => ensure_company_exists s d) db) = db1
  suffices h : ∀ (sched : List (String × String)) (acc : List Outcome) (d : DB),
      (sched.foldl
        (fun acc p =>
          let r := process_symbol_endpoint (sf p) (F p) p.1 p.2 acc.2
          (acc.1 ++ [r.1], r.2)) (acc, d)).1.map taskOf = acc.map taskOf ++ sched by
    simpa using h sched [] db1
  intro sched
  induction sched with
  | nil => intro acc d; simp
  | cons p rest ih =>
    intro acc d
    rw [List.foldl_cons, ih]
    have h12 : taskOf (process_symbol_endpoint (sf p) (F p) p.1 p.2 d).1 = p := by
      obtain ⟨h1, h2⟩ := pse_outcome_fields (sf p) (F p) p.1 p.2 d
      unfold taskOf
      rw [h1, h2]
    simp [h12]

/-! ### Dispatch reductions -/

theorem dispatch_daily_eq (sf : Bool) (sym : String) (json : Json) (db : DB) :
    dispatchEndpoint sf sym "TIME_SERIES_DAILY" json db =
      (getSeries json "Time Series (Daily)").bind fun m =>
        (processTableE sf (dailyEntry sym) sym m db.daily).map fun t =>
          { db with daily := t } := by
  unfold dispatchEndpoint
  rw [if_pos rfl]

theorem dispatch_intraday_eq (sf : Bool) (sym : String) (json : Json) (db : DB) :
    dispatchEndpoint sf sym "TIME_SERIES_INTRADAY" json db =
      (getSeries json "Time Series (5min)").bind fun m =>
        (processTableE sf (intradayEntry sym) sym m db.intraday).map fun t =>
          { db with intraday := t } := by
  unfold dispatchEndpoint
  rw [if_neg (by decide), if_pos rfl]

theorem dispatch_sma_eq (sf : Bool) (sym : String) (json : Json) (db : DB) :
    dispatchEndpoint sf sym "SMA" json db =
      (getSeries json "Technical Analysis: SMA").bind fun m =>
        (processTableE sf (smaEntryP sym) sym m db.sma).map fun t =>
          { db with sma := t } := by
  unfold dispatchEndpoint
  rw [if_neg (by decide), if_neg (by decide), if_pos rfl]

theorem dispatch_other_eq (sf : Bool) (sym e : String) (json : Json) (db : DB)
    (h1 : e ≠ "TIME_SERIES_DAILY") (h2 : e ≠ "TIME_SERIES_INTRADAY")
    (h3 : e ≠ "SMA") : dispatchEndpoint sf sym e json db = .ok db := by
  unfold dispatchEndpoint
  rw [if_neg h1, if_neg h2, if_neg h3]

theorem dispatch_false_daily (sym : String) (json : Json) (db : DB) :
    dispatchEndpoint false sym "TIME_SERIES_DAILY" json db =
      match getSeries json "Time Series (Daily)" with
      | .ok m => .ok { db with daily := process_daily_stock_prices sym m db.daily }
      | .error er => .error er := by
  rw [dispatch_daily_eq]
  cases getSeries json "Time Series (Daily)" with
  | ok m =>
    show Except.map _ (processTableE false (dailyEntry sym) sym m db.daily) = _
    rw [processTableE_false]
    rfl
  | error er => rfl

theorem dispatch_false_intraday (sym : String) (json : Json) (db : DB) :
    dispatchEndpoint false sym "TIME_SERIES_INTRADAY" json db =
      match getSeries json "Time Series (5min)" with
      | .ok m =>
        .ok { db with intraday := process_intraday_stock_prices sym m db.intraday }
      | .error er => .error er := by
  rw [dispatch_intraday_eq]
  cases getSeries json "Time Series (5min)" with
  | ok m =>
    show Except.map _ (processTableE false (intradayEntry sym) sym m db.intraday) = _
    rw [processTableE_false]
    rfl
  | error er => rfl

theorem dispatch_false_sma (sym : String) (json : Json) (db : DB) :
    dispatchEndpoint false sym "SMA" json db =
      match getSeries json "Technical Analysis: SMA" with
      | .ok m => .ok { db with sma := process_sma_indicators sym m db.sma }
      | .error er => .error er := by
  rw [dispatch_sma_eq]
  cases getSeries json "Technical Analysis: SMA" with
  | ok m =>
    show Except.map _ (processTableE false (smaEntryP sym) sym m db.sma) = _
    rw [processTableE_false]
    rfl
  | error er => rfl

/-! ### Deterministic per-task write forms (store faults off) -/

theorem stateStep_silent_of_em {F : String × String → FetchResult}
    {p : String × String} {v : JVal}
    (hEM : jsonLookup (fetch_api_data (F p)) "Error Message" = some v)
    (sf : String × String → Bool) (db : DB) : stateStep sf F db p = db := by
  rw [stateStep_eq, hEM]

theorem stateStep_silent_of_note {F : String × String → FetchResult}
    {p : String × String} {v : JVal}
    (hEM : jsonLookup (fetch_api_data (F p)) "Error Message" = none)
    (hNote : jsonLookup (fetch_api_data (F p)) "Note" = some v)
    (sf : String × String → Bool) (db : DB) : stateStep sf F db p = db := by
  rw [stateStep_eq, hEM, hNote]

theorem stateStep_false_daily_write {F : String × String → FetchResult}
    {p : String × String} {m : SeriesMap}
    (hEM : jsonLookup (fetch_api_data (F p)) "Error Message" = none)
    (hNote : jsonLookup (fetch_api_data (F p)) "Note" = none)
    (he : p.2 = "TIME_SERIES_DAILY")
    (hg : getSeries (fetch_api_data (F p)) "Time Series (Daily)" = .ok m)
    (db : DB) :
    stateStep (fun _ => false) F db p =
      { db with daily := process_daily_stock_prices p.1 m db.daily } := by
  rw [stateStep_eq, hEM, hNote, he, dispatch_false_daily, hg]

theorem stateStep_false_intraday_write {F : String × String → FetchResult}
    {p : String × String} {m : SeriesMap}
    (hEM : jsonLookup (fetch_api_data (F p)) "Error Message" = none)
    (hNote : jsonLookup (fetch_api_data (F p)) "Note" = none)
    (he : p.2 = "TIME_SERIES_INTRADAY")
    (hg : getSeries (fetch_api_data (F p)) "Time Series (5min)" = .ok m)
    (db : DB) :
    stateStep (fun _ => false) F db p =
      { db with intraday := process_intraday_stock_prices p.1 m db.intraday } := by
  rw [stateStep_eq, hEM, hNote, he, dispatch_false_intraday, hg]

theorem stateStep_false_sma_write {F : String × String → FetchResult}
    {p : String × String} {m : SeriesMap}
    (hEM : jsonLookup (fetch_api_data (F p)) "Error Message" = none)
    (hNote : jsonLookup (fetch_api_data (F p)) "Note" = none)
    (he : p.2 = "SMA")
    (hg : getSeries (fetch_api_data (F p)) "Technical Analysis: SMA" = .ok m)
    (db : DB) :
    stateStep (fun _ => false) F db p =
      { db with sma := process_sma_indicators p.1 m db.sma } := by
  rw [stateStep_eq, hEM, hNote, he, dispatch_false_sma, hg]

theorem stateStep_false_error {F : String × String → FetchResult}
    {p : String × String} {er : JVal}
    (hEM : jsonLookup (fetch_api_data (F p)) "Error Message" = none)
    (hNote : jsonLookup (fetch_api_data (F p)) "Note" = none)
    (hdisp : ∀ db : DB,
      dispatchEndpoint false p.1 p.2 (fetch_api_data (F p)) db = .error er)
    (db : DB) : stateStep (fun _ => false) F db p = db := by
  rw [stateStep_eq, hEM, hNote, hdisp db]

/-- With store faults off, every task either leaves the whole store
unchanged (for every starting state) or rewrites exactly one table with its
`process_*` function applied to a payload fixed by its own fetch result. -/
theorem stateStep_false_classify (F : String × String → FetchResult)
    (p : String × String) :
    (∀ db : DB, stateStep (fun _ => false) F db p = db) ∨
    (∃ m, p.2 = "TIME_SERIES_DAILY" ∧ ∀ db : DB,
      stateStep (fun _ => false) F db p =
        { db with daily := process_daily_stock_prices p.1 m db.daily }) ∨
    (∃ m, p.2 = "TIME_SERIES_INTRADAY" ∧ ∀ db : DB,
      stateStep (fun _ => false) F db p =
        { db with intraday := process_intraday_stock_prices p.1 m db.intraday }) ∨
    (∃ m, p.2 = "SMA" ∧ ∀ db : DB,
      stateStep (fun _ => false) F db p =
        { db with sma := process_sma_indicators p.1 m db.sma }) := by
  cases hEM : jsonLookup (fetch_api_data (F p)) "Error Message" with
  | some v => exact Or.inl fun db => stateStep_silent_of_em hEM _ db
  | none =>
  cases hNote : jsonLookup (fetch_api_data (F p)) "Note" with
  | some v => exact Or.inl fun db => stateStep_silent_of_note hEM hNote _ db
  | none =>
  by_cases hd : p.2 = "TIME_SERIES_DAILY"
  · cases hg : getSeries (fetch_api_data (F p)) "Time Series (Daily)" with
    | ok m =>
      exact Or.inr (Or.inl ⟨m, hd, fun db =>
        stateStep_false_daily_write hEM hNote hd hg db⟩)
    | error er =>
      refine Or.inl fun db => @stateStep_false_error F p er hEM hNote (fun db => ?_) db
      rw [hd, dispatch_false_daily, hg]
  · by_cases hi : p.2 = "TIME_SERIES_INTRADAY"
    · cases hg : getSeries (fetch_api_data (F p)) "Time Series (5min)" with
      | ok m =>
        exact Or.inr (Or.inr (Or.inl ⟨m, hi, fun db =>
          stateStep_false_intraday_write hEM hNote hi hg db⟩))
      | error er =>
        refine Or.inl fun db => @stateStep_false_error F p er hEM hNote (fun db => ?_) db
        rw [hi, dispatch_false_intraday, hg]
    · by_cases hs : p.2 = "SMA"
      · cases hg : getSeries (fetch_api_data (F p)) "Technical Analysis: SMA" with
        | ok m =>
          exact Or.inr (Or.inr (Or.inr ⟨m, hs, fun db =>
            stateStep_false_sma_write hEM hNote hs hg db⟩))
        | error er =>
          refine Or.inl fun db => @stateStep_false_error F p er hEM hNote (fun db => ?_) db
          rw [hs, dispatch_false_sma, hg]
      · refine Or.inl fun db => ?_
        rw [stateStep_eq, hEM, hNote, dispatch_other_eq false p.1 p.2 _ db hd hi hs]

theorem crossTasks_length (symbols endpoints : List String) :
    (crossTasks symbols endpoints).length =
      symbols.length * endpoints.length := by
  induction symbols with
  | nil => simp [crossTasks]
  | cons s rest ih =>
    show (endpoints.map (fun e => (s, e)) ++ crossTasks rest endpoints).length = _
    rw [List.length_append, List.length_map, ih, List.length_cons,
      Nat.succ_mul, Nat.add_comm]

/-! ### Frames and idempotence of tasks -/

/-- A `process_*` call for one symbol never changes the rows any other
symbol owns in its table. -/
theorem processTable_rowsOf_other {α : Type} {sym : String}
    {mk : Option DateTime → String × FieldMap → Option (Row α)}
    (Hsym : ∀ l kv r, mk l kv = some r → r.symbol = sym)
    (data : SeriesMap) (t : List (Row α)) {s : String} (hne : sym ≠ s) :
    rowsOf s (processTable mk sym data t) = rowsOf s t := by
  obtain ⟨ex, hex, hmem⟩ := processTable_append mk sym data t
  rw [hex]
  apply rowsOf_append_other
  intro r hr
  obtain ⟨kv, -, hkv⟩ := hmem r hr
  rw [Hsym _ _ _ hkv]
  exact hne

theorem process_daily_rowsOf_other {q s : String} (hne : q ≠ s)
    (m : SeriesMap) (t : List (Row PriceFields)) :
    rowsOf s (process_daily_stock_prices q m t) = rowsOf s t :=
  processTable_rowsOf_other (fun _ _ _ h => dailyEntry_symbol h) m t hne

theorem process_intraday_rowsOf_other {q s : String} (hne : q ≠ s)
    (m : SeriesMap) (t : List (Row PriceFields)) :
    rowsOf s (process_intraday_stock_prices q m t) = rowsOf s t :=
  processTable_rowsOf_other (fun _ _ _ h => intradayEntry_symbol h) m t hne

theorem process_sma_rowsOf_other {q s : String} (hne : q ≠ s)
    (m : SeriesMap) (t : List (Row Decimal)) :
    rowsOf s (process_sma_indicators q m t) = rowsOf s t :=
  processTable_rowsOf_other (fun _ _ _ h => smaEntryP_symbol h) m t hne

theorem process_daily_noop_transfer {sym : String} {data : SeriesMap}
    {t t' : List (Row PriceFields)}
    (h : process_daily_stock_prices sym data t = t)
    (hrows : rowsOf sym t' = rowsOf sym t) :
    process_daily_stock_prices sym data t' = t' :=
  processTable_transfer (fun _ _ _ hh => dailyEntry_symbol hh) h hrows

theorem process_intraday_noop_transfer {sym : String} {data : SeriesMap}
    {t t' : List (Row PriceFields)}
    (h : process_intraday_stock_prices sym data t = t)
    (hrows : rowsOf sym t' = rowsOf sym t) :
    process_intraday_stock_prices sym data t' = t' :=
  processTable_transfer (fun _ _ _ hh => intradayEntry_symbol hh) h hrows

theorem process_sma_noop_transfer {sym : String} {data : SeriesMap}
    {t t' : List (Row Decimal)}
    (h : process_sma_indicators sym data t = t)
    (hrows : rowsOf sym t' = rowsOf sym t) :
    process_sma_indicators sym data t' = t' :=
  processTable_transfer (fun _ _ _ hh => smaEntryP_symbol hh) h hrows

/-- With faults off, a task whose own table rows for its symbol are
unchanged stays a no-op (case split on what the task writes). -/
theorem stateStep_noop_transfer (F : String × String → FetchResult)
    {p : String × String} {db db' : DB}
    (h : stateStep (fun _ => false) F db p = db)
    (hd : p.2 = "TIME_SERIES_DAILY" →
      rowsOf p.1 db'.daily = rowsOf p.1 db.daily)
    (hi : p.2 = "TIME_SERIES_INTRADAY" →
      rowsOf p.1 db'.intraday = rowsOf p.1 db.intraday)
    (hs : p.2 = "SMA" → rowsOf p.1 db'.sma = rowsOf p.1 db.sma) :
    stateStep (fun _ => false) F db' p = db' := by
  rcases stateStep_false_classify F p with hsil | ⟨m, hp2, hw⟩ | ⟨m, hp2, hw⟩ |
    ⟨m, hp2, hw⟩
  · exact hsil db'
  · have hP : process_daily_stock_prices p.1 m db.daily = db.daily :=
      congrArg DB.daily ((hw db).symm.trans h)
    rw [hw db', process_daily_noop_transfer hP (hd hp2)]
  · have hP : process_intraday_stock_prices p.1 m db.intraday = db.intraday :=
      congrArg DB.intraday ((hw db).symm.trans h)
    rw [hw db', process_intraday_noop_transfer hP (hi hp2)]
  · have hP : process_sma_indicators p.1 m db.sma = db.sma :=
      congrArg DB.sma ((hw db).symm.trans h)
    rw [hw db', process_sma_noop_transfer hP (hs hp2)]

/-- Immediately after a task runs, re-running it is a no-op. -/
theorem taskNoop_establish (F : String × String → FetchResult) (db : DB)
    (p : String × String) :
    stateStep (fun _ => false) F (stateStep (fun _ => false) F db p) p =
      stateStep (fun _ => false) F db p := by
  rcases stateStep_false_classify F p with hsil | ⟨m, -, hw⟩ | ⟨m, -, hw⟩ |
    ⟨m, -, hw⟩
  · rw [hsil db]
    exact hsil db
  · rw [hw db, hw _]
    simp [process_daily_idem]
  · rw [hw db, hw _]
    simp [process_intraday_idem]
  · rw [hw db, hw _]
    simp [process_sma_idem]

/-- Once a task is a no-op, any other task's run keeps it a no-op: a
different endpoint writes a different table, and the same endpoint for a
different symbol leaves this symbol's rows alone. -/
theorem taskNoop_preserve (F : String × String → FetchResult)
    {db : DB} {p : String × String}
    (h : stateStep (fun _ => false) F db p = db) (q : String × String) :
    stateStep (fun _ => false) F (stateStep (fun _ => false) F db q) p =
      stateStep (fun _ => false) F db q := by
  by_cases hpq : q = p
  · subst hpq
    rw [h]
    exact h
  · apply stateStep_noop_transfer F h
    · intro hp2
      rcases stateStep_false_classify F q with hsil | ⟨mq, hq2, hqw⟩ |
        ⟨mq, hq2, hqw⟩ | ⟨mq, hq2, hqw⟩
      · rw [hsil db]
      · have hq1 : q.1 ≠ p.1 := fun hq1 =>
          hpq (Prod.ext hq1 (hq2.trans hp2.symm))
        rw [hqw db]
        exact process_daily_rowsOf_other hq1 mq db.daily
      · rw [hqw db]
      · rw [hqw db]
    · intro hp2
      rcases stateStep_false_classify F q with hsil | ⟨mq, hq2, hqw⟩ |
        ⟨mq, hq2, hqw⟩ | ⟨mq, hq2, hqw⟩
      · rw [hsil db]
      · rw [hqw db]
      · have hq1 : q.1 ≠ p.1 := fun hq1 =>
          hpq (Prod.ext hq1 (hq2.trans hp2.symm))
        rw [hqw db]
        exact process_intraday_rowsOf_other hq1 mq db.intraday
      · rw [hqw db]
    · intro hp2
      rcases stateStep_false_classify F q with hsil | ⟨mq, hq2, hqw⟩ |
        ⟨mq, hq2, hqw⟩ | ⟨mq, hq2, hqw⟩
      · rw [hsil db]
      · rw [hqw db]
      · rw [hqw db]
      · have hq1 : q.1 ≠ p.1 := fun hq1 =>
          hpq (Prod.ext hq1 (hq2.trans hp2.symm))
        rw [hqw db]
        exact process_sma_rowsOf_other hq1 mq db.sma

theorem taskNoop_foldl_preserve (F : String × String → FetchResult)
    {db : DB} {p : String × String}
    (h : stateStep (fun _ => false) F db p = db)
    (sched : List (String × String)) :
    stateStep (fun _ => false) F
        (sched.foldl (stateStep (fun _ => false) F) db) p =
      sched.foldl (stateStep (fun _ => false) F) db := by
  induction sched generalizing db with
  | nil => exact h
  | cons q rest ih => exact ih (taskNoop_preserve F h q)

/-- After a whole pass, every task of the pass is a no-op on the final
state. -/
theorem after_run_taskNoop (F : String × String → FetchResult)
    (sched : List (String × String)) :
    ∀ (db : DB) (p : String × String), p ∈ sched →
      stateStep (fun _ => false) F
          (sched.foldl (stateStep (fun _ => false) F) db) p =
        sched.foldl (stateStep (fun _ => false) F) db := by
  induction sched with
  | nil => intro db p hp; simp at hp
  | cons q rest ih =>
    intro db p hp
    rcases List.mem_cons.mp hp with rfl | hp'
    · exact taskNoop_foldl_preserve F (taskNoop_establish F db p) rest
    · exact ih (stateStep (fun _ => false) F db q) p hp'

theorem foldl_stateStep_noop (F : String × String → FetchResult)
    {db : DB} {sched : List (String × String)}
    (h : ∀ p ∈ sched, stateStep (fun _ => false) F db p = db) :
    sched.foldl (stateStep (fun _ => false) F) db = db := by
  induction sched with
  | nil => rfl
  | cons q rest ih =>
    rw [List.foldl_cons, h q (List.mem_cons_self q rest)]
    exact ih fun p hp => h p (List.mem_cons_of_mem q hp)

/-! ### Company-phase lemmas -/

theorem ensure_company_subset (s : String) (db : DB) :
    db.companies ⊆ (ensure_company_exists s db).companies := by
  unfold ensure_company_exists
  split
  · exact fun x hx => hx
  · exact fun x hx => List.mem_append_left _ hx

theorem ensure_company_mem (s : String) (db : DB) :
    s ∈ (ensure_company_exists s db).companies := by
  unfold ensure_company_exists
  split
  · assumption
  · exact List.mem_append_right _ (List.mem_singleton_self s)

theorem foldl_ensure_subset (symbols : List String) (db : DB) :
    db.companies ⊆
      (symbols.foldl (fun d s => ensure_company_exists s d) db).companies := by
  induction symbols generalizing db with
  | nil => exact fun x hx => hx
  | cons s rest ih =>
    exact fun x hx => ih _ (ensure_company_subset s db hx)

theorem foldl_ensure_mem (symbols : List String) (db : DB) :
    ∀ s ∈ symbols,
      s ∈ (symbols.foldl (fun d s => ensure_company_exists s d) db).companies := by
  induction symbols generalizing db with
  | nil => intro s hs; simp at hs
  | cons x rest ih =>
    intro s hs
    rcases List.mem_cons.mp hs with rfl | hs'
    · exact foldl_ensure_subset rest _ (ensure_company_mem s db)
    · exact ih _ s hs'

theorem ensure_company_noop {s : String} {db : DB} (h : s ∈ db.companies) :
    ensure_company_exists s db = db := by
  unfold ensure_company_exists
  rw [if_pos h]

theorem foldl_ensure_noop {symbols : List String} {db : DB}
    (h : ∀ s ∈ symbols, s ∈ db.companies) :
    symbols.foldl (fun d s => ensure_company_exists s d) db = db := by
  induction symbols with
  | nil => rfl
  | cons s rest ih =>
    rw [List.foldl_cons, ensure_company_noop (h s (List.mem_cons_self s rest))]
    exact ih fun x hx => h x (List.mem_cons_of_mem s hx)

/-- Tasks never touch the companies table. -/
theorem stateStep_false_companies (F : String × String → FetchResult)
    (db : DB) (p : String × String) :
    (stateStep (fun _ => false) F db p).companies = db.companies := by
  rcases stateStep_false_classify F p with hsil | ⟨m, -, hw⟩ | ⟨m, -, hw⟩ |
    ⟨m, -, hw⟩
  · rw [hsil db]
  · rw [hw db]
  · rw [hw db]
  · rw [hw db]

theorem foldl_stateStep_companies (F : String × String → FetchResult)
    (sched : List (String × String)) (db : DB) :
    (sched.foldl (stateStep (fun _ => false) F) db).companies =
      db.companies := by
  induction sched generalizing db with
  | nil => rfl
  | cons q rest ih =>
    rw [List.foldl_cons, ih]
    exact stateStep_false_companies F db q

/-- Running the whole sweep a second time, in any completion order, leaves
the store exactly as the first run left it. -/
theorem run_twice_noop (F : String × String → FetchResult)
    (symbols endpoints : List String)
    (sched1 sched2 : List (String × String)) (db0 : DB)
    (h1 : sched1.Perm (crossTasks symbols endpoints))
    (h2 : sched2.Perm (crossTasks symbols endpoints)) :
    (run_parallel_etl (fun _ => false) F symbols endpoints sched2
        (run_parallel_etl (fun _ => false) F symbols endpoints sched1 db0).2).2 =
      (run_parallel_etl (fun _ => false) F symbols endpoints sched1 db0).2 := by
  have hrun1 : (run_parallel_etl (fun _ => false) F symbols endpoints sched1 db0).2 =
      sched1.foldl (stateStep (fun _ => false) F)
        (symbols.foldl (fun d s => ensure_company_exists s d) db0) :=
    run_snd _ F symbols endpoints sched1 db0
  have hcomp : ∀ s ∈ symbols,
      s ∈ (run_parallel_etl (fun _ => false) F symbols endpoints sched1 db0).2.companies := by
    intro s hs
    rw [hrun1, foldl_stateStep_companies]
    exact foldl_ensure_mem symbols db0 s hs
  rw [run_snd, foldl_ensure_noop hcomp]
  apply foldl_stateStep_noop
  intro p hp
  have hp1 : p ∈ sched1 := h1.mem_iff.mpr (h2.mem_iff.mp hp)
  rw [hrun1]
  exact after_run_taskNoop F sched1 _ p hp1

/-! ### Outcome-level reductions of `process_symbol_endpoint` -/

theorem pse_error_message {j : Json} {v : JVal}
    (h : jsonLookup j "Error Message" = some v) (sf : Bool)
    (sym e : String) (db : DB) :
    process_symbol_endpoint sf (.ok j) sym e db = (⟨sym, e, false, v⟩, db) := by
  unfold process_symbol_endpoint fetch_api_data
  rw [h]

theorem pse_note {j : Json} {v : JVal}
    (hEM : jsonLookup j "Error Message" = none)
    (h : jsonLookup j "Note" = some v) (sf : Bool)
    (sym e : String) (db : DB) :
    process_symbol_endpoint sf (.ok j) sym e db = (⟨sym, e, false, v⟩, db) := by
  unfold process_symbol_endpoint fetch_api_data
  rw [hEM, h]

theorem pse_dispatch {j : Json}
    (hEM : jsonLookup j "Error Message" = none)
    (hNote : jsonLookup j "Note" = none) (sf : Bool)
    (sym e : String) (db : DB) :
    process_symbol_endpoint sf (.ok j) sym e db =
      match dispatchEndpoint sf sym e j db with
      | .ok db' => (⟨sym, e, true, .str "Processed successfully"⟩, db')
      | .error er => (⟨sym, e, false, er⟩, db) := by
  unfold process_symbol_endpoint fetch_api_data
  rw [hEM, hNote]

theorem getSeries_of_lookup_none {json : Json} {k : String}
    (h : jsonLookup json k = none) : getSeries json k = .ok [] := by
  unfold getSeries
  rw [h]

theorem processTableE_nil {α : Type} (sf : Bool)
    (mk : Option DateTime → String × FieldMap → Option (Row α))
    (sym : String) (t : List (Row α)) :
    processTableE sf mk sym [] t = .ok t := rfl

theorem dispatch_empty_series_daily {json : Json}
    (hg : getSeries json "Time Series (Daily)" = .ok []) (sf : Bool)
    (sym : String) (db : DB) :
    dispatchEndpoint sf sym "TIME_SERIES_DAILY" json db = .ok db := by
  rw [dispatch_daily_eq, hg]
  rfl

theorem dispatch_empty_series_intraday {json : Json}
    (hg : getSeries json "Time Series (5min)" = .ok []) (sf : Bool)
    (sym : String) (db : DB) :
    dispatchEndpoint sf sym "TIME_SERIES_INTRADAY" json db = .ok db := by
  rw [dispatch_intraday_eq, hg]
  rfl

theorem dispatch_empty_series_sma {json : Json}
    (hg : getSeries json "Technical Analysis: SMA" = .ok []) (sf : Bool)
    (sym : String) (db : DB) :
    dispatchEndpoint sf sym "SMA" json db = .ok db := by
  rw [dispatch_sma_eq, hg]
  rfl

/-- On the empty payload every endpoint branch is a silent success. -/
theorem dispatch_empty_json (sf : Bool) (sym e : String) (db : DB) :
    dispatchEndpoint sf sym e [] db = .ok db := by
  by_cases hd : e = "TIME_SERIES_DAILY"
  · subst hd
    exact dispatch_empty_series_daily
      (getSeries_of_lookup_none
        (show jsonLookup [] "Time Series (Daily)" = none from rfl)) sf sym db
  · by_cases hi : e = "TIME_SERIES_INTRADAY"
    · subst hi
      exact dispatch_empty_series_intraday
        (getSeries_of_lookup_none
          (show jsonLookup [] "Time Series (5min)" = none from rfl)) sf sym db
    · by_cases hs : e = "SMA"
      · subst hs
        exact dispatch_empty_series_sma
          (getSeries_of_lookup_none
            (show jsonLookup [] "Technical Analysis: SMA" = none from rfl)) sf sym db
      · exact dispatch_other_eq sf sym e [] db hd hi hs

/-- A swallowed `RequestException` yields an empty payload, which sails
through every check and reports success having written nothing. -/
theorem pse_requestError (sf : Bool) (msg : String) (sym e : String) (db : DB) :
    process_symbol_endpoint sf (.requestError msg) sym e db =
      (⟨sym, e, true, .str "Processed successfully"⟩, db) := by
  unfold process_symbol_endpoint fetch_api_data
  rw [show jsonLookup [] "Error Message" = none from rfl,
    show jsonLookup [] "Note" = none from rfl, dispatch_empty_json]

theorem processTableE_true_ok {α : Type}
    {mk : Option DateTime → String × FieldMap → Option (Row α)}
    {sym : String} {data : SeriesMap} {t t' : List (Row α)}
    (h : processTableE true mk sym data t = .ok t') : t' = t := by
  unfold processTableE at h
  by_cases hd : data.isEmpty
  · rw [if_pos hd] at h
    cases h
    rfl
  · rw [if_neg hd] at h
    by_cases hvl : (data.filterMap (mk (lastTs sym t))).isEmpty
    · rw [if_pos hvl] at h
      cases h
      rfl
    · rw [if_neg hvl] at h
      simp at h

/-- Unfolded form of `processTableE`. -/
theorem processTableE_eq {α : Type} (sf : Bool)
    (mk : Option DateTime → String × FieldMap → Option (Row α))
    (sym : String) (data : SeriesMap) (t : List (Row α)) :
    processTableE sf mk sym data t =
      if data.isEmpty then .ok t
      else if (data.filterMap (mk (lastTs sym t))).isEmpty then .ok t
      else if sf then .error (.str "Error executing batch")
      else .ok (insertBatch t (data.filterMap (mk (lastTs sym t)))) := rfl

theorem processTableE_true_error {α : Type}
    {mk : Option DateTime → String × FieldMap → Option (Row α)}
    {sym : String} {data : SeriesMap} {t : List (Row α)}
    (hd : data.isEmpty = false)
    (hvl : (data.filterMap (mk (lastTs sym t))).isEmpty = false) :
    processTableE true mk sym data t = .error (.str "Error executing batch") := by
  rw [processTableE_eq]
  simp [hd, hvl]

/-- A writer call that changes the table had a non-empty payload and a
non-empty `values_list`. -/
theorem processTable_ne_nonempty {α : Type}
    {mk : Option DateTime → String × FieldMap → Option (Row α)}
    {sym : String} {data : SeriesMap} {t : List (Row α)}
    (h : processTable mk sym data t ≠ t) :
    data.isEmpty = false ∧
      (data.filterMap (mk (lastTs sym t))).isEmpty = false := by
  rw [processTable_eq] at h
  by_cases hd : data.isEmpty
  · rw [if_pos hd] at h
    exact absurd rfl h
  · rw [if_neg hd] at h
    by_cases hvl : (data.filterMap (mk (lastTs sym t))).isEmpty
    · rw [if_pos hvl] at h
      exact absurd rfl h
    · exact ⟨Bool.eq_false_iff.mpr hd, Bool.eq_false_iff.mpr hvl⟩

/-- With a store fault injected, the task's state never changes: either no
batch was attempted, or the batch raised and was rolled back. -/
theorem pse_true_snd (fetch : FetchResult) (sym e : String) (db : DB) :
    (process_symbol_endpoint true fetch sym e db).2 = db := by
  have hdisp : ∀ (json : Json) (db' : DB),
      dispatchEndpoint true sym e json db = .ok db' → db' = db := by
    intro json db' h
    by_cases hd : e = "TIME_SERIES_DAILY"
    · subst hd
      rw [dispatch_daily_eq] at h
      cases hg : getSeries json "Time Series (Daily)" with
      | error er => rw [hg] at h; simp [Except.bind] at h
      | ok m =>
        rw [hg] at h
        simp only [Except.bind] at h
        cases hpt : processTableE true (dailyEntry sym) sym m db.daily with
        | error er => rw [hpt] at h; simp [Except.map] at h
        | ok t' =>
          rw [hpt] at h
          simp only [Except.map] at h
          cases h
          rw [processTableE_true_ok hpt]
    · by_cases hi : e = "TIME_SERIES_INTRADAY"
      · subst hi
        rw [dispatch_intraday_eq] at h
        cases hg : getSeries json "Time Series (5min)" with
        | error er => rw [hg] at h; simp [Except.bind] at h
        | ok m =>
          rw [hg] at h
          simp only [Except.bind] at h
          cases hpt : processTableE true (intradayEntry sym) sym m db.intraday with
          | error er => rw [hpt] at h; simp [Except.map] at h
          | ok t' =>
            rw [hpt] at h
            simp only [Except.map] at h
            cases h
            rw [processTableE_true_ok hpt]
      · by_cases hs : e = "SMA"
        · subst hs
          rw [dispatch_sma_eq] at h
          cases hg : getSeries json "Technical Analysis: SMA" with
          | error er => rw [hg] at h; simp [Except.bind] at h
          | ok m =>
            rw [hg] at h
            simp only [Except.bind] at h
            cases hpt : processTableE true (smaEntryP sym) sym m db.sma with
            | error er => rw [hpt] at h; simp [Except.map] at h
            | ok t' =>
              rw [hpt] at h
              simp only [Except.map] at h
              cases h
              rw [processTableE_true_ok hpt]
        · rw [dispatch_other_eq true sym e json db hd hi hs] at h
          cases h
          rfl
  unfold process_symbol_endpoint
  cases jsonLookup (fetch_api_data fetch) "Error Message" with
  | some v => rfl
  | none =>
    cases jsonLookup (fetch_api_data fetch) "Note" with
    | some v => rfl
    | none =>
      cases hD : dispatchEndpoint true sym e (fetch_api_data fetch) db with
      | ok db' => exact hdisp _ db' hD
      | error er => rfl

/-- A dispatch that actually changed the store under a healthy store would
have raised under a faulty one: the change requires a non-empty batch, and
that batch is exactly the call that faults. -/
theorem dispatch_false_ne_true_error {sym e : String} {json : Json}
    {db db' : DB} (h : dispatchEndpoint false sym e json db = .ok db')
    (hne : db' ≠ db) :
    dispatchEndpoint true sym e json db = .error (.str "Error executing batch") := by
  by_cases hd : e = "TIME_SERIES_DAILY"
  · subst hd
    rw [dispatch_false_daily] at h
    cases hg : getSeries json "Time Series (Daily)" with
    | error er => rw [hg] at h; simp at h
    | ok m =>
      rw [hg] at h
      cases h
      have hPne : process_daily_stock_prices sym m db.daily ≠ db.daily :=
        fun hP => hne (by rw [hP])
      obtain ⟨hde, hvle⟩ := processTable_ne_nonempty hPne
      rw [dispatch_daily_eq, hg]
      simp only [Except.bind]
      rw [processTableE_true_error hde hvle]
      rfl
  · by_cases hi : e = "TIME_SERIES_INTRADAY"
    · subst hi
      rw [dispatch_false_intraday] at h
      cases hg : getSeries json "Time Series (5min)" with
      | error er => rw [hg] at h; simp at h
      | ok m =>
        rw [hg] at h
        cases h
        have hPne : process_intraday_stock_prices sym m db.intraday ≠ db.intraday :=
          fun hP => hne (by rw [hP])
        obtain ⟨hde, hvle⟩ := processTable_ne_nonempty hPne
        rw [dispatch_intraday_eq, hg]
        simp only [Except.bind]
        rw [processTableE_true_error hde hvle]
        rfl
    · by_cases hs : e = "SMA"
      · subst hs
        rw [dispatch_false_sma] at h
        cases hg : getSeries json "Technical Analysis: SMA" with
        | error er => rw [hg] at h; simp at h
        | ok m =>
          rw [hg] at h
          cases h
          have hPne : process_sma_indicators sym m db.sma ≠ db.sma :=
            fun hP => hne (by rw [hP])
          obtain ⟨hde, hvle⟩ := processTable_ne_nonempty hPne
          rw [dispatch_sma_eq, hg]
          simp only [Except.bind]
          rw [processTableE_true_error hde hvle]
          rfl
      · rw [dispatch_other_eq false sym e json db hd hi hs] at h
        cases h
        exact absurd rfl hne

/-- If a task would write rows when the store is healthy, the same task
under a store fault reports failure. -/
theorem pse_false_writes_true_fail (fetch : FetchResult) (sym e : String)
    (db : DB) (hne : (process_symbol_endpoint false fetch sym e db).2 ≠ db) :
    (process_symbol_endpoint true fetch sym e db).1.success = false := by
  unfold process_symbol_endpoint at hne ⊢
  cases hEM : jsonLookup (fetch_api_data fetch) "Error Message" with
  | some v => rw [hEM] at hne
  | none =>
    rw [hEM] at hne
    cases hNote : jsonLookup (fetch_api_data fetch) "Note" with
    | some v => rw [hNote] at hne
    | none =>
      rw [hNote] at hne
      cases hD : dispatchEndpoint false sym e (fetch_api_data fetch) db with
      | error er => rw [hD] at hne; exact absurd rfl hne
      | ok db' =>
        rw [hD] at hne
        rw [dispatch_false_ne_true_error hD hne]

/-- A record whose fields are missing or non-numeric is skipped under every
watermark. -/
theorem dailyEntry_none_of_fields {sym : String} {v : FieldMap}
    (hv : parsePriceFields v = none) (last : Option DateTime) (k : String) :
    dailyEntry sym last (k, v) = none := by
  unfold dailyEntry
  cases hp : parseDate k with
  | none =>
    exact entryOf_none_ts last
      (show parseDate ((k, v) : String × FieldMap).1 = none from hp)
  | some d =>
    rw [entryOf_some_ts last
      (show parseDate ((k, v) : String × FieldMap).1 = some d from hp)]
    split
    · rfl
    · show Option.map _ (parsePriceFields v) = none
      rw [hv]
      rfl

/-- Tasks for other endpoints never touch the daily table. -/
theorem stateStep_daily_frame (F : String × String → FetchResult) (db : DB)
    {p : String × String} (hp : p.2 ≠ "TIME_SERIES_DAILY") :
    (stateStep (fun _ => false) F db p).daily = db.daily := by
  rcases stateStep_false_classify F p with hsil | ⟨m, hp2, hw⟩ | ⟨m, -, hw⟩ |
    ⟨m, -, hw⟩
  · rw [hsil db]
  · exact absurd hp2 hp
  · rw [hw db]
  · rw [hw db]

theorem stateStep_intraday_frame (F : String × String → FetchResult) (db : DB)
    {p : String × String} (hp : p.2 ≠ "TIME_SERIES_INTRADAY") :
    (stateStep (fun _ => false) F db p).intraday = db.intraday := by
  rcases stateStep_false_classify F p with hsil | ⟨m, -, hw⟩ | ⟨m, hp2, hw⟩ |
    ⟨m, -, hw⟩
  · rw [hsil db]
  · rw [hw db]
  · exact absurd hp2 hp
  · rw [hw db]

theorem stateStep_sma_frame (F : String × String → FetchResult) (db : DB)
    {p : String × String} (hp : p.2 ≠ "SMA") :
    (stateStep (fun _ => false) F db p).sma = db.sma := by
  rcases stateStep_false_classify F p with hsil | ⟨m, -, hw⟩ | ⟨m, -, hw⟩ |
    ⟨m, hp2, hw⟩
  · rw [hsil db]
  · rw [hw db]
  · rw [hw db]
  · exact absurd hp2 hp

/-- The outcome of a daily task, and the daily table it leaves behind,
depend only on its own fetch result and the daily table it starts from. -/
theorem pse_daily_dep (sf : Bool) (fetch : FetchResult) (sym : String)
    {db db' : DB} (h : db.daily = db'.daily) :
    (process_symbol_endpoint sf fetch sym "TIME_SERIES_DAILY" db).1 =
      (process_symbol_endpoint sf fetch sym "TIME_SERIES_DAILY" db').1 ∧
    (process_symbol_endpoint sf fetch sym "TIME_SERIES_DAILY" db).2.daily =
      (process_symbol_endpoint sf fetch sym "TIME_SERIES_DAILY" db').2.daily := by
  unfold process_symbol_endpoint
  cases hEM : jsonLookup (fetch_api_data fetch) "Error Message" with
  | some v => exact ⟨rfl, h⟩
  | none =>
    cases hNote : jsonLookup (fetch_api_data fetch) "Note" with
    | some v => exact ⟨rfl, h⟩
    | none =>
      rw [dispatch_daily_eq, dispatch_daily_eq]
      cases hg : getSeries (fetch_api_data fetch) "Time Series (Daily)" with
      | error er => exact ⟨rfl, h⟩
      | ok m =>
        simp only [Except.bind]
        rw [h]
        cases hpt : processTableE sf (dailyEntry sym) sym m db'.daily with
        | error er => exact ⟨rfl, h⟩
        | ok t => exact ⟨rfl, rfl⟩

end Etl

namespace MainPy

open Etl

/-! ### Lemmas about the sequential variant -/

/-- The misspelled comparison sends the real daily table name to the
`MAX(date_time)` query, which errors on the daily schema and is folded into
`None`: the daily watermark simply never exists. -/
theorem check_last_date_daily (sym : String) (db : DB) :
    check_last_date sym "daily_stock_prices" db = none := rfl

/-- Hence `update_daily_stock_prices` always takes the no-watermark branch
and attempts an insert for every fetched record. -/
theorem update_daily_no_watermark (sym : String) (data : SeriesMap) (db : DB) :
    update_daily_stock_prices sym data "daily_stock_prices" db =
      data.foldl (fun d kv => insert_daily_stock_prices sym kv.1 kv.2 d) db := rfl

/-- A record whose key is already present (or which fails to parse) leaves
the store unchanged: the conflict (or cast error) raised by the store is
swallowed by `execute_query` and nothing else happens. -/
theorem insert_daily_dup {sym k : String} {v : FieldMap} {db : DB}
    (h : ∀ d, parseDate k = some d → keyMem db.daily sym d) :
    insert_daily_stock_prices sym k v db = db := by
  unfold insert_daily_stock_prices
  cases hf : parsePriceFields v with
  | none => rfl
  | some f =>
    cases hd : parseDate k with
    | none => rfl
    | some d => simp [h d hd]

/-- The no-watermark insertion loop appends exactly the records whose
fields and date parse, provided their keys are fresh and their dates
pairwise distinct. -/
theorem insert_all_char (sym : String) :
    ∀ (data : SeriesMap) (db : DB),
      (∀ kv ∈ data, ∀ d, parseDate kv.1 = some d → ¬ keyMem db.daily sym d) →
      (data.filterMap (fun kv => parseDate kv.1)).Nodup →
      data.foldl (fun d kv => insert_daily_stock_prices sym kv.1 kv.2 d) db =
        { db with daily := db.daily ++
          data.filterMap (fun kv => (parsePriceFields kv.2).bind fun f =>
            (parseDate kv.1).map fun d =>
              (⟨sym, kv.1, d, f⟩ : Row PriceFields)) } := by
  intro data
  induction data with
  | nil => intro db hfresh hnodup; simp
  | cons kv rest ih =>
    intro db hfresh hnodup
    have hfresh' : ∀ x ∈ rest, ∀ d, parseDate x.1 = some d →
        ¬ keyMem db.daily sym d :=
      fun x hx => hfresh x (List.mem_cons_of_mem kv hx)
    cases hf : parsePriceFields kv.2 with
    | none =>
      have hnodup' : (rest.filterMap (fun kv => parseDate kv.1)).Nodup := by
        cases hpd : parseDate kv.1 with
        | none => simpa only [List.filterMap_cons, hpd] using hnodup
        | some d =>
          simp only [List.filterMap_cons, hpd] at hnodup
          exact (List.nodup_cons.mp hnodup).2
      have hstep : insert_daily_stock_prices sym kv.1 kv.2 db = db := by
        simp [insert_daily_stock_prices, hf]
      rw [List.foldl_cons, hstep, ih db hfresh' hnodup', List.filterMap_cons]
      simp [hf]
    | some f =>
      cases hpd : parseDate kv.1 with
      | none =>
        have hnodup' : (rest.filterMap (fun kv => parseDate kv.1)).Nodup := by
          simpa only [List.filterMap_cons, hpd] using hnodup
        have hstep : insert_daily_stock_prices sym kv.1 kv.2 db = db := by
          simp [insert_daily_stock_prices, hf, hpd]
        rw [List.foldl_cons, hstep, ih db hfresh' hnodup', List.filterMap_cons]
        simp [hf, hpd]
      | some d =>
        simp only [List.filterMap_cons, hpd] at hnodup
        have hdnot := (List.nodup_cons.mp hnodup).1
        have hnodup' := (List.nodup_cons.mp hnodup).2
        have hstep : insert_daily_stock_prices sym kv.1 kv.2 db =
            { db with daily := db.daily ++
              [(⟨sym, kv.1, d, f⟩ : Row PriceFields)] } := by
          simp [insert_daily_stock_prices, hf, hpd,
            hfresh kv (List.mem_cons_self kv rest) d hpd]
        have hfresh2 : ∀ x ∈ rest, ∀ d', parseDate x.1 = some d' →
            ¬ keyMem (db.daily ++ [(⟨sym, kv.1, d, f⟩ : Row PriceFields)])
              sym d' := by
          intro x hx d' hd'
          rw [keyMem_append_iff]
          rintro (hk | hk)
          · exact hfresh' x hx d' hd' hk
          · obtain ⟨r, hr, -, hrt⟩ := hk
            simp only [List.mem_singleton] at hr
            subst hr
            apply hdnot
            rw [← hrt] at hd'
            exact List.mem_filterMap.mpr ⟨x, hx, hd'⟩
        rw [List.foldl_cons, hstep, ih _ hfresh2 hnodup', List.filterMap_cons]
        simp [hf, hpd, List.append_assoc]

end MainPy



/-! # Claim theorems -/

open Etl

/-- C7: fetching the daily series for IBM that contains the single entry
2024-01-02 with open 190.0, high 192.0, low 189.0, close 191.5 and volume
1000000, with no watermark for (IBM, daily), inserts exactly one row
(IBM, 2024-01-02, 190.0, 192.0, 189.0, 191.5, 1000000). -/
theorem c7_ibm_daily_example :
    process_daily_stock_prices "IBM"
      [("2024-01-02", [("1. open", "190.0"), ("2. high", "192.0"),
        ("3. low", "189.0"), ("4. close", "191.5"), ("5. volume", "1000000")])]
      [] =
      [⟨"IBM", "2024-01-02", ⟨2024, 1, 2, 0, 0, 0⟩,
        ⟨⟨1900, 1⟩, ⟨1920, 1⟩, ⟨1890, 1⟩, ⟨1915, 1⟩, 1000000⟩⟩] := by
  decide

/-- C9: in the sequential PostgreSQL variant, `check_last_date` compares
the table name against the misspelled `'daily_stock_pries'`, so the real
daily table name reaches the `MAX(date_time)` query against a table that
only has a `date` column; the watermark lookup therefore always returns
`None` and `update_daily_stock_prices` always takes the no-watermark
branch, attempting an insert for every fetched record. -/
theorem c9_daily_watermark_dead (sym : String) (db : DB) (data : SeriesMap) :
    MainPy.check_last_date sym "daily_stock_prices" db = none ∧
    MainPy.update_daily_stock_prices sym data "daily_stock_prices" db =
      data.foldl (fun d kv => MainPy.insert_daily_stock_prices sym kv.1 kv.2 d) db :=
  ⟨MainPy.check_last_date_daily sym db, MainPy.update_daily_no_watermark sym data db⟩

/-- C10: in the DuckDB variant's SMA processing, a parsed timestamp with
hour and minute both zero is stored as `YYYY-MM-DD 00:00:00`, so a nonzero
seconds component (e.g. 00:00:30) is silently replaced by 00. -/
theorem c10_duckdb_sma_seconds_dropped :
    (∀ dt : DateTime, dt.hour = 0 → dt.minute = 0 →
      duckdbTimestampStr dt = formatDate dt ++ " 00:00:00") ∧
    process_sma_indicators_duckdb "IBM"
      [("2024-01-02 00:00:30", [("SMA", "1.5")])] [] =
      [⟨"IBM", "2024-01-02 00:00:00", ⟨2024, 1, 2, 0, 0, 0⟩, ⟨15, 1⟩⟩] := by
  constructor
  · intro dt h1 h2
    unfold duckdbTimestampStr
    rw [if_neg]
    simp [h1, h2]
  · decide

/-- C10 witness: the first conjunct applied to the concrete timestamp
2024-01-02 00:00:30. -/
theorem c10_duckdb_sma_seconds_dropped_witness :
    duckdbTimestampStr ⟨2024, 1, 2, 0, 0, 30⟩ =
      formatDate ⟨2024, 1, 2, 0, 0, 30⟩ ++ " 00:00:00" :=
  c10_duckdb_sma_seconds_dropped.1 ⟨2024, 1, 2, 0, 0, 30⟩ rfl rfl

/-- C6: SMA timestamp parsing accepts the full `YYYY-MM-DD HH:MM:SS` format
and falls back to date-only `YYYY-MM-DD` (in both parallel variants the two
candidate formats accept disjoint strings, so the attempt orders agree);
a date-only key is canonicalized to midnight of that date, and the spec's
example payload is stored at `2024-01-02 00:00:00` in both variants. -/
theorem c6_sma_timestamp_formats :
    (∀ (s : String) (dt : DateTime), parseDateTime s = some dt →
      smaParseTsP s = some dt ∧ smaParseTsD s = some dt) ∧
    (∀ s : String, parseDateTime s = none →
      smaParseTsP s = parseDate s ∧ smaParseTsD s = parseDate s) ∧
    (∀ (s : String) (d : DateTime), parseDate s = some d →
      d.hour = 0 ∧ d.minute = 0 ∧ d.second = 0) ∧
    process_sma_indicators "IBM" [("2024-01-02", [("SMA", "150.25")])] [] =
      [⟨"IBM", "2024-01-02", ⟨2024, 1, 2, 0, 0, 0⟩, ⟨15025, 2⟩⟩] ∧
    process_sma_indicators_duckdb "IBM" [("2024-01-02", [("SMA", "150.25")])] [] =
      [⟨"IBM", "2024-01-02 00:00:00", ⟨2024, 1, 2, 0, 0, 0⟩, ⟨15025, 2⟩⟩] := by
  refine ⟨?_, ?_, fun s d h => parseDate_midnight h, by decide, by decide⟩
  · intro s dt h
    constructor
    · unfold smaParseTsP
      rw [h]
    · unfold smaParseTsD
      rw [parseDate_of_parseDateTime h, h]
  · intro s h
    constructor
    · unfold smaParseTsP
      rw [h]
    · unfold smaParseTsD
      cases hd : parseDate s with
      | some d => rfl
      | none => exact h

/-- C6 witness: the format fallback and canonicalization at concrete keys. -/
theorem c6_sma_timestamp_formats_witness :
    (smaParseTsP "2024-01-02 03:04:05" = some ⟨2024, 1, 2, 3, 4, 5⟩ ∧
      smaParseTsD "2024-01-02 03:04:05" = some ⟨2024, 1, 2, 3, 4, 5⟩) ∧
    (smaParseTsP "2024-01-02" = parseDate "2024-01-02" ∧
      smaParseTsD "2024-01-02" = parseDate "2024-01-02") ∧
    ((⟨2024, 1, 2, 0, 0, 0⟩ : DateTime).hour = 0 ∧
      (⟨2024, 1, 2, 0, 0, 0⟩ : DateTime).minute = 0 ∧
      (⟨2024, 1, 2, 0, 0, 0⟩ : DateTime).second = 0) :=
  ⟨c6_sma_timestamp_formats.1 "2024-01-02 03:04:05" ⟨2024, 1, 2, 3, 4, 5⟩
      (by decide),
    c6_sma_timestamp_formats.2.1 "2024-01-02" (by decide),
    c6_sma_timestamp_formats.2.2.1 "2024-01-02" ⟨2024, 1, 2, 0, 0, 0⟩
      (by decide)⟩

/-- C5: a payload carrying an `Error Message` (or, failing that, a
rate-limit `Note`) makes the task return a non-success outcome whose
message is exactly that value, writing nothing; a payload lacking both keys
and the expected nested series key yields an empty record set and a
successful outcome that writes nothing. -/
theorem c5_api_error_and_empty_series :
    (∀ (j : Json) (v : JVal) (sf : Bool) (sym e : String) (db : DB),
      jsonLookup j "Error Message" = some v →
      process_symbol_endpoint sf (.ok j) sym e db = (⟨sym, e, false, v⟩, db)) ∧
    (∀ (j : Json) (v : JVal) (sf : Bool) (sym e : String) (db : DB),
      jsonLookup j "Error Message" = none → jsonLookup j "Note" = some v →
      process_symbol_endpoint sf (.ok j) sym e db = (⟨sym, e, false, v⟩, db)) ∧
    (∀ (j : Json) (sf : Bool) (sym e : String) (db : DB),
      jsonLookup j "Error Message" = none → jsonLookup j "Note" = none →
      ((e = "TIME_SERIES_DAILY" ∧ jsonLookup j "Time Series (Daily)" = none) ∨
        (e = "TIME_SERIES_INTRADAY" ∧ jsonLookup j "Time Series (5min)" = none) ∨
        (e = "SMA" ∧ jsonLookup j "Technical Analysis: SMA" = none)) →
      process_symbol_endpoint sf (.ok j) sym e db =
        (⟨sym, e, true, .str "Processed successfully"⟩, db)) := by
  refine ⟨fun j v sf sym e db h => pse_error_message h sf sym e db,
    fun j v sf sym e db h1 h2 => pse_note h1 h2 sf sym e db, ?_⟩
  intro j sf sym e db h1 h2 hcase
  rw [pse_dispatch h1 h2]
  rcases hcase with ⟨rfl, hk⟩ | ⟨rfl, hk⟩ | ⟨rfl, hk⟩
  · rw [dispatch_empty_series_daily (getSeries_of_lookup_none hk)]
  · rw [dispatch_empty_series_intraday (getSeries_of_lookup_none hk)]
  · rw [dispatch_empty_series_sma (getSeries_of_lookup_none hk)]

/-- C5 witness: the three behaviours at concrete payloads. -/
theorem c5_api_error_and_empty_series_witness :
    process_symbol_endpoint false
        (.ok [("Error Message", .str "Invalid API call")]) "AAPL"
        "TIME_SERIES_DAILY" ⟨[], [], [], []⟩ =
      (⟨"AAPL", "TIME_SERIES_DAILY", false, .str "Invalid API call"⟩,
        ⟨[], [], [], []⟩) ∧
    process_symbol_endpoint false
        (.ok [("Note", .str "API call frequency exceeded")]) "AAPL"
        "SMA" ⟨[], [], [], []⟩ =
      (⟨"AAPL", "SMA", false, .str "API call frequency exceeded"⟩,
        ⟨[], [], [], []⟩) ∧
    process_symbol_endpoint false
        (.ok [("Meta Data", .str "x")]) "AAPL" "TIME_SERIES_DAILY"
        ⟨[], [], [], []⟩ =
      (⟨"AAPL", "TIME_SERIES_DAILY", true, .str "Processed successfully"⟩,
        ⟨[], [], [], []⟩) :=
  ⟨c5_api_error_and_empty_series.1 _ _ false "AAPL" "TIME_SERIES_DAILY" _
      (by decide),
    c5_api_error_and_empty_series.2.1 _ _ false "AAPL" "SMA" _ (by decide)
      (by decide),
    c5_api_error_and_empty_series.2.2 _ false "AAPL" "TIME_SERIES_DAILY" _
      (by decide) (by decide) (Or.inl ⟨rfl, by decide⟩)⟩

/-- C3: a record with a missing required field or a non-numeric value is
skipped and only that record: processing the payload with the malformed
entry equals processing the payload without it (so all other valid records
are still written), and the processing function returns normally (no
exception escapes: the fault-aware wrapper yields `.ok`).  The daily loop
shown is shared verbatim by `main_parallel.py` and
`main_parallel_duckdb.py`. -/
theorem c3_malformed_record_skipped :
    ∀ (sym : String) (t : List (Row PriceFields)) (l1 l2 : SeriesMap)
      (k : String) (v : FieldMap),
      parsePriceFields v = none →
      process_daily_stock_prices sym (l1 ++ (k, v) :: l2) t =
        process_daily_stock_prices sym (l1 ++ l2) t ∧
      processTableE false (dailyEntry sym) sym (l1 ++ (k, v) :: l2) t =
        .ok (process_daily_stock_prices sym (l1 ++ l2) t) := by
  intro sym t l1 l2 k v hv
  have hfm : ∀ last,
      (l1 ++ (k, v) :: l2).filterMap (dailyEntry sym last) =
        (l1 ++ l2).filterMap (dailyEntry sym last) := by
    intro last
    rw [List.filterMap_append, List.filterMap_append, List.filterMap_cons,
      dailyEntry_none_of_fields hv last k]
  have hmain : process_daily_stock_prices sym (l1 ++ (k, v) :: l2) t =
      process_daily_stock_prices sym (l1 ++ l2) t := by
    unfold process_daily_stock_prices
    rw [processTable_eq, processTable_eq, hfm]
    by_cases h2 : (l1 ++ l2).isEmpty
    · rw [if_neg (by simp), if_pos h2]
      rw [List.isEmpty_iff] at h2
      rw [h2]
      simp
    · rw [if_neg (by simp), if_neg h2]
  refine ⟨hmain, ?_⟩
  rw [processTableE_false]
  exact congrArg Except.ok hmain

/-- C3 witness: a payload with one non-numeric record between two valid
ones is processed exactly like the payload without it. -/
theorem c3_malformed_record_skipped_witness :
    parsePriceFields [("1. open", "abc")] = none ∧
    process_daily_stock_prices "IBM"
      ([("2024-01-03", [("1. open", "10.0"), ("2. high", "11.0"),
          ("3. low", "9.0"), ("4. close", "10.5"), ("5. volume", "100")])] ++
        ("2024-01-02", [("1. open", "abc")]) ::
        [("2024-01-01", [("1. open", "1.0"), ("2. high", "2.0"),
          ("3. low", "0.5"), ("4. close", "1.5"), ("5. volume", "10")])])
      [] =
      process_daily_stock_prices "IBM"
        ([("2024-01-03", [("1. open", "10.0"), ("2. high", "11.0"),
            ("3. low", "9.0"), ("4. close", "10.5"), ("5. volume", "100")])] ++
          [("2024-01-01", [("1. open", "1.0"), ("2. high", "2.0"),
            ("3. low", "0.5"), ("4. close", "1.5"), ("5. volume", "10")])])
        [] :=
  ⟨by decide,
    (c3_malformed_record_skipped "IBM" []
      [("2024-01-03", [("1. open", "10.0"), ("2. high", "11.0"),
        ("3. low", "9.0"), ("4. close", "10.5"), ("5. volume", "100")])]
      [("2024-01-01", [("1. open", "1.0"), ("2. high", "2.0"),
        ("3. low", "0.5"), ("4. close", "1.5"), ("5. volume", "10")])]
      "2024-01-02" [("1. open", "abc")] (by decide)).1⟩

/-- C8: for every symbol and dataset list, a run over any completion order
of the task cross product yields exactly one outcome per (symbol, endpoint)
task pair — the reported pairs are a permutation of the cross product, the
result list has length `|symbols| * |endpoints|`, and the final summary
counts satisfy `succeeded + failed = number of pairs`. -/
theorem c8_one_outcome_per_pair
    (sf : String × String → Bool) (F : String × String → FetchResult)
    (symbols endpoints : List String) (sched : List (String × String))
    (db : DB) (hperm : sched.Perm (crossTasks symbols endpoints)) :
    ((run_parallel_etl sf F symbols endpoints sched db).1.map taskOf).Perm
      (crossTasks symbols endpoints) ∧
    (run_parallel_etl sf F symbols endpoints sched db).1.length =
      symbols.length * endpoints.length ∧
    successCount (run_parallel_etl sf F symbols endpoints sched db).1 +
        failedCount (run_parallel_etl sf F symbols endpoints sched db).1 =
      symbols.length * endpoints.length := by
  have hmap := run_fst_taskOf sf F symbols endpoints sched db
  have hlen : (run_parallel_etl sf F symbols endpoints sched db).1.length =
      sched.length := by
    have h := congrArg List.length hmap
    rwa [List.length_map] at h
  have hlen2 : (run_parallel_etl sf F symbols endpoints sched db).1.length =
      symbols.length * endpoints.length := by
    rw [hlen, hperm.length_eq, crossTasks_length]
  refine ⟨?_, hlen2, ?_⟩
  · rw [hmap]
    exact hperm
  unfold failedCount
  rw [Nat.add_sub_cancel' ?hle, hlen2]
  case hle =>
    unfold successCount
    exact List.length_filter_le _ _

/-- C8 witness: a one-symbol, one-endpoint run in its only completion
order. -/
theorem c8_one_outcome_per_pair_witness :
    (((run_parallel_etl (fun _ => false) (fun _ => .requestError "down")
        ["IBM"] ["SMA"] [("IBM", "SMA")] ⟨[], [], [], []⟩).1.map taskOf).Perm
      (crossTasks ["IBM"] ["SMA"])) ∧
    (run_parallel_etl (fun _ => false) (fun _ => .requestError "down")
        ["IBM"] ["SMA"] [("IBM", "SMA")] ⟨[], [], [], []⟩).1.length = 1 * 1 ∧
    successCount (run_parallel_etl (fun _ => false)
          (fun _ => .requestError "down") ["IBM"] ["SMA"] [("IBM", "SMA")]
          ⟨[], [], [], []⟩).1 +
        failedCount (run_parallel_etl (fun _ => false)
          (fun _ => .requestError "down") ["IBM"] ["SMA"] [("IBM", "SMA")]
          ⟨[], [], [], []⟩).1 = 1 * 1 :=
  c8_one_outcome_per_pair (fun _ => false) (fun _ => .requestError "down")
    ["IBM"] ["SMA"] [("IBM", "SMA")] ⟨[], [], [], []⟩ (by decide)

/-- C4 counterexample: a network error inside a task is NOT converted into
a failed outcome — `fetch_api_data` swallows the `RequestException` into an
empty payload and the task reports success. -/
theorem c4_counterexample :
    (process_symbol_endpoint false (.requestError "connection reset by peer")
      "AAPL" "SMA" ⟨[], [], [], []⟩).1.success = true := by
  decide

/-- C4 (amended): a network or JSON-decode error is swallowed by
`fetch_api_data` into an empty payload, so the task completes with
success = true and writes nothing; a store error is caught per task: the
store is left unchanged and, whenever the healthy-store run would have
written rows, the faulty-store run reports success = false; the run still
produces one outcome per scheduled task; and a failing fetch for one
(symbol, dataset) pair does not change the outcome or the written rows of
the daily task of the same symbol. -/
theorem c4_per_task_failure_semantics :
    (∀ (sf : Bool) (msg sym e : String) (db : DB),
      process_symbol_endpoint sf (.requestError msg) sym e db =
        (⟨sym, e, true, .str "Processed successfully"⟩, db)) ∧
    (∀ (fetch : FetchResult) (sym e : String) (db : DB),
      (process_symbol_endpoint true fetch sym e db).2 = db) ∧
    (∀ (fetch : FetchResult) (sym e : String) (db : DB),
      (process_symbol_endpoint false fetch sym e db).2 ≠ db →
      (process_symbol_endpoint true fetch sym e db).1.success = false) ∧
    (∀ (sf : String × String → Bool) (F : String × String → FetchResult)
      (symbols endpoints : List String) (sched : List (String × String))
      (db : DB),
      (run_parallel_etl sf F symbols endpoints sched db).1.length =
        sched.length) ∧
    (∀ (s : String) (fd f1 f2 : FetchResult) (db : DB),
      (run_parallel_etl (fun _ => false)
          (fun p => if p.2 = "SMA" then f1 else fd) [s]
          ["SMA", "TIME_SERIES_DAILY"] [(s, "SMA"), (s, "TIME_SERIES_DAILY")]
          db).1.getLast? =
        (run_parallel_etl (fun _ => false)
          (fun p => if p.2 = "SMA" then f2 else fd) [s]
          ["SMA", "TIME_SERIES_DAILY"] [(s, "SMA"), (s, "TIME_SERIES_DAILY")]
          db).1.getLast? ∧
      (run_parallel_etl (fun _ => false)
          (fun p => if p.2 = "SMA" then f1 else fd) [s]
          ["SMA", "TIME_SERIES_DAILY"] [(s, "SMA"), (s, "TIME_SERIES_DAILY")]
          db).2.daily =
        (run_parallel_etl (fun _ => false)
          (fun p => if p.2 = "SMA" then f2 else fd) [s]
          ["SMA", "TIME_SERIES_DAILY"] [(s, "SMA"), (s, "TIME_SERIES_DAILY")]
          db).2.daily) := by
  refine ⟨pse_requestError, pse_true_snd, pse_false_writes_true_fail,
    ?_, ?_⟩
  · intro sf F symbols endpoints sched db
    have h := congrArg List.length (run_fst_taskOf sf F symbols endpoints sched db)
    rwa [List.length_map] at h
  · intro s fd f1 f2 db
    have step1 : ∀ fsma : FetchResult,
        (process_symbol_endpoint false fsma s "SMA"
          (ensure_company_exists s db)).2.daily =
          (ensure_company_exists s db).daily := by
      intro fsma
      exact @stateStep_daily_frame (fun _ => fsma) (ensure_company_exists s db)
        (s, "SMA") (by simp)
    obtain ⟨ho, hd⟩ := pse_daily_dep false fd s ((step1 f1).trans (step1 f2).symm)
    constructor
    · show some (process_symbol_endpoint false fd s "TIME_SERIES_DAILY"
          (process_symbol_endpoint false f1 s "SMA"
            (ensure_company_exists s db)).2).1 =
        some (process_symbol_endpoint false fd s "TIME_SERIES_DAILY"
          (process_symbol_endpoint false f2 s "SMA"
            (ensure_company_exists s db)).2).1
      exact congrArg some ho
    · show (process_symbol_endpoint false fd s "TIME_SERIES_DAILY"
          (process_symbol_endpoint false f1 s "SMA"
            (ensure_company_exists s db)).2).2.daily =
        (process_symbol_endpoint false fd s "TIME_SERIES_DAILY"
          (process_symbol_endpoint false f2 s "SMA"
            (ensure_company_exists s db)).2).2.daily
      exact hd

/-- C4 witness: the amended semantics at concrete inputs - a swallowed
network error reporting success, a store fault leaving the store unchanged
and downgrading a would-be write to a failed outcome, a singleton run
producing one outcome, and the daily task unaffected by the SMA fetch. -/
theorem c4_per_task_failure_semantics_witness :
    process_symbol_endpoint false (.requestError "timeout") "AAPL" "SMA"
        ⟨[], [], [], []⟩ =
      (⟨"AAPL", "SMA", true, .str "Processed successfully"⟩,
        ⟨[], [], [], []⟩) ∧
    (process_symbol_endpoint true
        (.ok [("Time Series (Daily)", .series [("2024-01-02",
          [("1. open", "1.0"), ("2. high", "2.0"), ("3. low", "0.5"),
            ("4. close", "1.5"), ("5. volume", "10")])])])
        "IBM" "TIME_SERIES_DAILY" ⟨[], [], [], []⟩).2 = ⟨[], [], [], []⟩ ∧
    (process_symbol_endpoint true
        (.ok [("Time Series (Daily)", .series [("2024-01-02",
          [("1. open", "1.0"), ("2. high", "2.0"), ("3. low", "0.5"),
            ("4. close", "1.5"), ("5. volume", "10")])])])
        "IBM" "TIME_SERIES_DAILY" ⟨[], [], [], []⟩).1.success = false ∧
    (run_parallel_etl (fun _ => false) (fun _ => .requestError "down")
        ["IBM"] ["SMA"] [("IBM", "SMA")] ⟨[], [], [], []⟩).1.length =
      [("IBM", "SMA")].length ∧
    (run_parallel_etl (fun _ => false)
        (fun p => if p.2 = "SMA" then FetchResult.requestError "net down"
          else FetchResult.ok [("Time Series (Daily)", .series [("2024-01-02",
            [("1. open", "1.0"), ("2. high", "2.0"), ("3. low", "0.5"),
              ("4. close", "1.5"), ("5. volume", "10")])])]) ["IBM"]
        ["SMA", "TIME_SERIES_DAILY"]
        [("IBM", "SMA"), ("IBM", "TIME_SERIES_DAILY")]
        ⟨[], [], [], []⟩).2.daily =
      (run_parallel_etl (fun _ => false)
        (fun p => if p.2 = "SMA" then FetchResult.ok [("Error Message",
            .str "Invalid API call")]
          else FetchResult.ok [("Time Series (Daily)", .series [("2024-01-02",
            [("1. open", "1.0"), ("2. high", "2.0"), ("3. low", "0.5"),
              ("4. close", "1.5"), ("5. volume", "10")])])]) ["IBM"]
        ["SMA", "TIME_SERIES_DAILY"]
        [("IBM", "SMA"), ("IBM", "TIME_SERIES_DAILY")]
        ⟨[], [], [], []⟩).2.daily :=
  ⟨c4_per_task_failure_semantics.1 false "timeout" "AAPL" "SMA" ⟨[], [], [], []⟩,
    c4_per_task_failure_semantics.2.1 _ "IBM" "TIME_SERIES_DAILY" ⟨[], [], [], []⟩,
    c4_per_task_failure_semantics.2.2.1 _ "IBM" "TIME_SERIES_DAILY"
      ⟨[], [], [], []⟩ (by decide),
    c4_per_task_failure_semantics.2.2.2.1 (fun _ => false)
      (fun _ => .requestError "down") ["IBM"] ["SMA"] [("IBM", "SMA")]
      ⟨[], [], [], []⟩,
    (c4_per_task_failure_semantics.2.2.2.2 "IBM"
      (FetchResult.ok [("Time Series (Daily)", .series [("2024-01-02",
        [("1. open", "1.0"), ("2. high", "2.0"), ("3. low", "0.5"),
          ("4. close", "1.5"), ("5. volume", "10")])])])
      (FetchResult.requestError "net down")
      (FetchResult.ok [("Error Message", .str "Invalid API call")])
      ⟨[], [], [], []⟩).2⟩

/-- C1: for every symbol and payload, each parallel writer with a watermark
`T` inserts exactly the valid fetched records with timestamp strictly
greater than `T` and none at or below it, even when the payload interleaves
old and new timestamps; with no watermark every valid record is inserted.
In the sequential variant the daily watermark lookup always yields `None`
(see C9), so its daily update likewise inserts every valid record. -/
theorem c1_watermark_strict_filter (sym : String) (data : SeriesMap) :
    (∀ (t : List (Row PriceFields)) (T : DateTime),
      lastTs sym t = some T →
      ((data.filterMap (dailyEntry sym none)).map (fun r => r.ts)).Nodup →
      process_daily_stock_prices sym data t =
        t ++ (data.filterMap (dailyEntry sym none)).filter
          (fun r => decide (T.key < r.ts.key))) ∧
    (∀ t : List (Row PriceFields),
      rowsOf sym t = [] →
      ((data.filterMap (dailyEntry sym none)).map (fun r => r.ts)).Nodup →
      process_daily_stock_prices sym data t =
        t ++ data.filterMap (dailyEntry sym none)) ∧
    (∀ (t : List (Row PriceFields)) (T : DateTime),
      lastTs sym t = some T →
      ((data.filterMap (intradayEntry sym none)).map (fun r => r.ts)).Nodup →
      process_intraday_stock_prices sym data t =
        t ++ (data.filterMap (intradayEntry sym none)).filter
          (fun r => decide (T.key < r.ts.key))) ∧
    (∀ t : List (Row PriceFields),
      rowsOf sym t = [] →
      ((data.filterMap (intradayEntry sym none)).map (fun r => r.ts)).Nodup →
      process_intraday_stock_prices sym data t =
        t ++ data.filterMap (intradayEntry sym none)) ∧
    (∀ (t : List (Row Decimal)) (T : DateTime),
      lastTs sym t = some T →
      ((data.filterMap (smaEntryP sym none)).map (fun r => r.ts)).Nodup →
      process_sma_indicators sym data t =
        t ++ (data.filterMap (smaEntryP sym none)).filter
          (fun r => decide (T.key < r.ts.key))) ∧
    (∀ t : List (Row Decimal),
      rowsOf sym t = [] →
      ((data.filterMap (smaEntryP sym none)).map (fun r => r.ts)).Nodup →
      process_sma_indicators sym data t =
        t ++ data.filterMap (smaEntryP sym none)) ∧
    (∀ db : DB, MainPy.check_last_date sym "daily_stock_prices" db = none) ∧
    (∀ db : DB,
      (∀ kv ∈ data, ∀ d, parseDate kv.1 = some d → ¬ keyMem db.daily sym d) →
      (data.filterMap (fun kv => parseDate kv.1)).Nodup →
      MainPy.update_daily_stock_prices sym data "daily_stock_prices" db =
        { db with daily := db.daily ++ data.filterMap (fun kv =>
          (parsePriceFields kv.2).bind fun f => (parseDate kv.1).map fun d =>
            (⟨sym, kv.1, d, f⟩ : Row PriceFields)) }) := by
  refine ⟨?_, ?_, ?_, ?_, ?_, ?_,
    fun db => MainPy.check_last_date_daily sym db, ?_⟩
  · intro t T hlast hnodup
    exact @processTable_char_some PriceFields sym (dailyEntry sym)
      (fun _ _ _ h => dailyEntry_symbol h)
      (fun T kv => entryOf_filter (goodBuild_daily sym) T kv)
      data t T hlast hnodup
  · intro t hrows hnodup
    exact @processTable_char_none PriceFields sym (dailyEntry sym)
      (fun _ _ _ h => dailyEntry_symbol h) data t hrows hnodup
  · intro t T hlast hnodup
    exact @processTable_char_some PriceFields sym (intradayEntry sym)
      (fun _ _ _ h => intradayEntry_symbol h)
      (fun T kv => entryOf_filter (goodBuild_daily sym) T kv)
      data t T hlast hnodup
  · intro t hrows hnodup
    exact @processTable_char_none PriceFields sym (intradayEntry sym)
      (fun _ _ _ h => intradayEntry_symbol h) data t hrows hnodup
  · intro t T hlast hnodup
    exact @processTable_char_some Decimal sym (smaEntryP sym)
      (fun _ _ _ h => smaEntryP_symbol h)
      (fun T kv => entryOf_filter (goodBuild_smaP sym) T kv)
      data t T hlast hnodup
  · intro t hrows hnodup
    exact @processTable_char_none Decimal sym (smaEntryP sym)
      (fun _ _ _ h => smaEntryP_symbol h) data t hrows hnodup
  · intro db hfresh hnodup
    rw [MainPy.update_daily_no_watermark]
    exact MainPy.insert_all_char sym data db hfresh hnodup

/-- C1 witness: the daily writer on a payload interleaving timestamps below
and above the watermark 2024-01-02, the no-watermark case, and the
sequential variant's insert-everything behaviour on an empty store. -/
theorem c1_watermark_strict_filter_witness :
    (process_daily_stock_prices "IBM"
      [("2024-01-03", [("1. open", "10.0"), ("2. high", "11.0"),
        ("3. low", "9.0"), ("4. close", "10.5"), ("5. volume", "100")]),
       ("2024-01-01", [("1. open", "1.0"), ("2. high", "2.0"),
        ("3. low", "0.5"), ("4. close", "1.5"), ("5. volume", "10")]),
       ("2024-01-04", [("1. open", "20.0"), ("2. high", "21.0"),
        ("3. low", "19.0"), ("4. close", "20.5"), ("5. volume", "200")])]
      [⟨"IBM", "2024-01-02", ⟨2024, 1, 2, 0, 0, 0⟩,
        ⟨⟨50, 1⟩, ⟨60, 1⟩, ⟨40, 1⟩, ⟨55, 1⟩, 5⟩⟩] =
      [⟨"IBM", "2024-01-02", ⟨2024, 1, 2, 0, 0, 0⟩,
        ⟨⟨50, 1⟩, ⟨60, 1⟩, ⟨40, 1⟩, ⟨55, 1⟩, 5⟩⟩] ++
        (([("2024-01-03", [("1. open", "10.0"), ("2. high", "11.0"),
            ("3. low", "9.0"), ("4. close", "10.5"), ("5. volume", "100")]),
          ("2024-01-01", [("1. open", "1.0"), ("2. high", "2.0"),
            ("3. low", "0.5"), ("4. close", "1.5"), ("5. volume", "10")]),
          ("2024-01-04", [("1. open", "20.0"), ("2. high", "21.0"),
            ("3. low", "19.0"), ("4. close", "20.5"), ("5. volume", "200")])]
          : SeriesMap).filterMap (dailyEntry "IBM" none)).filter
          (fun r => decide ((⟨2024, 1, 2, 0, 0, 0⟩ : DateTime).key < r.ts.key))) ∧
    (process_daily_stock_prices "IBM"
      [("2024-01-03", [("1. open", "10.0"), ("2. high", "11.0"),
        ("3. low", "9.0"), ("4. close", "10.5"), ("5. volume", "100")]),
       ("2024-01-01", [("1. open", "1.0"), ("2. high", "2.0"),
        ("3. low", "0.5"), ("4. close", "1.5"), ("5. volume", "10")]),
       ("2024-01-04", [("1. open", "20.0"), ("2. high", "21.0"),
        ("3. low", "19.0"), ("4. close", "20.5"), ("5. volume", "200")])]
      [] =
      [] ++ (([("2024-01-03", [("1. open", "10.0"), ("2. high", "11.0"),
          ("3. low", "9.0"), ("4. close", "10.5"), ("5. volume", "100")]),
        ("2024-01-01", [("1. open", "1.0"), ("2. high", "2.0"),
          ("3. low", "0.5"), ("4. close", "1.5"), ("5. volume", "10")]),
        ("2024-01-04", [("1. open", "20.0"), ("2. high", "21.0"),
          ("3. low", "19.0"), ("4. close", "20.5"), ("5. volume", "200")])]
        : SeriesMap).filterMap (dailyEntry "IBM" none))) ∧
    MainPy.update_daily_stock_prices "IBM"
      [("2024-01-03", [("1. open", "10.0"), ("2. high", "11.0"),
        ("3. low", "9.0"), ("4. close", "10.5"), ("5. volume", "100")]),
       ("2024-01-01", [("1. open", "1.0"), ("2. high", "2.0"),
        ("3. low", "0.5"), ("4. close", "1.5"), ("5. volume", "10")]),
       ("2024-01-04", [("1. open", "20.0"), ("2. high", "21.0"),
        ("3. low", "19.0"), ("4. close", "20.5"), ("5. volume", "200")])]
      "daily_stock_prices" ⟨[], [], [], []⟩ =
      { (⟨[], [], [], []⟩ : DB) with
        daily := ([] : List (Row PriceFields)) ++
        ([("2024-01-03", [("1. open", "10.0"), ("2. high", "11.0"),
            ("3. low", "9.0"), ("4. close", "10.5"), ("5. volume", "100")]),
          ("2024-01-01", [("1. open", "1.0"), ("2. high", "2.0"),
            ("3. low", "0.5"), ("4. close", "1.5"), ("5. volume", "10")]),
          ("2024-01-04", [("1. open", "20.0"), ("2. high", "21.0"),
            ("3. low", "19.0"), ("4. close", "20.5"), ("5. volume", "200")])]
          : SeriesMap).filterMap (fun kv =>
            (parsePriceFields kv.2).bind fun f => (parseDate kv.1).map fun d =>
              (⟨"IBM", kv.1, d, f⟩ : Row PriceFields)) } :=
  ⟨(c1_watermark_strict_filter "IBM" _).1
      [⟨"IBM", "2024-01-02", ⟨2024, 1, 2, 0, 0, 0⟩,
        ⟨⟨50, 1⟩, ⟨60, 1⟩, ⟨40, 1⟩, ⟨55, 1⟩, 5⟩⟩]
      ⟨2024, 1, 2, 0, 0, 0⟩ (by decide) (by decide),
    (c1_watermark_strict_filter "IBM" _).2.1 [] (by decide) (by decide),
    (c1_watermark_strict_filter "IBM" _).2.2.2.2.2.2.2 ⟨[], [], [], []⟩
      (fun kv _ d _ => not_keyMem_of_rowsOf_nil (by rfl) d) (by decide)⟩

/-- C2: running the full sweep twice with identical API responses (in any
two completion orders) leaves the whole store exactly as one run leaves it;
the batched insert is insert-or-ignore, so re-inserting an existing
(symbol, timestamp) key is a silent no-op; and in the sequential variant a
duplicate insert is likewise swallowed without raising or duplicating. -/
theorem c2_sweep_idempotent :
    (∀ (F : String × String → FetchResult) (symbols endpoints : List String)
      (sched1 sched2 : List (String × String)) (db0 : DB),
      sched1.Perm (crossTasks symbols endpoints) →
      sched2.Perm (crossTasks symbols endpoints) →
      (run_parallel_etl (fun _ => false) F symbols endpoints sched2
        (run_parallel_etl (fun _ => false) F symbols endpoints sched1 db0).2).2 =
      (run_parallel_etl (fun _ => false) F symbols endpoints sched1 db0).2) ∧
    (∀ (α : Type) (t : List (Row α)) (r : Row α),
      keyMem t r.symbol r.ts → insertOrIgnore t r = t) ∧
    (∀ (sym k : String) (v : FieldMap) (db : DB),
      (∀ d, parseDate k = some d → keyMem db.daily sym d) →
      MainPy.insert_daily_stock_prices sym k v db = db) := by
  refine ⟨run_twice_noop, ?_, fun sym k v db h => MainPy.insert_daily_dup h⟩
  intro α t r h
  unfold insertOrIgnore
  rw [if_pos h]

/-- C2 witness: a one-task sweep run twice on the same daily payload, an
insert-or-ignore against an existing key, and a duplicate sequential
insert. -/
theorem c2_sweep_idempotent_witness :
    (run_parallel_etl (fun _ => false)
      (fun _ => FetchResult.ok [("Time Series (Daily)", .series
        [("2024-01-02", [("1. open", "1.0"), ("2. high", "2.0"),
          ("3. low", "0.5"), ("4. close", "1.5"), ("5. volume", "10")])])])
      ["IBM"] ["TIME_SERIES_DAILY"] [("IBM", "TIME_SERIES_DAILY")]
      (run_parallel_etl (fun _ => false)
        (fun _ => FetchResult.ok [("Time Series (Daily)", .series
          [("2024-01-02", [("1. open", "1.0"), ("2. high", "2.0"),
            ("3. low", "0.5"), ("4. close", "1.5"), ("5. volume", "10")])])])
        ["IBM"] ["TIME_SERIES_DAILY"] [("IBM", "TIME_SERIES_DAILY")]
        ⟨[], [], [], []⟩).2).2 =
      (run_parallel_etl (fun _ => false)
        (fun _ => FetchResult.ok [("Time Series (Daily)", .series
          [("2024-01-02", [("1. open", "1.0"), ("2. high", "2.0"),
            ("3. low", "0.5"), ("4. close", "1.5"), ("5. volume", "10")])])])
        ["IBM"] ["TIME_SERIES_DAILY"] [("IBM", "TIME_SERIES_DAILY")]
        ⟨[], [], [], []⟩).2 ∧
    insertOrIgnore
        [(⟨"IBM", "2024-01-02", ⟨2024, 1, 2, 0, 0, 0⟩, ⟨15, 1⟩⟩ : Row Decimal)]
        ⟨"IBM", "other", ⟨2024, 1, 2, 0, 0, 0⟩, ⟨99, 0⟩⟩ =
      [⟨"IBM", "2024-01-02", ⟨2024, 1, 2, 0, 0, 0⟩, ⟨15, 1⟩⟩] ∧
    MainPy.insert_daily_stock_prices "IBM" "2024-01-02"
        [("1. open", "1.0"), ("2. high", "2.0"), ("3. low", "0.5"),
          ("4. close", "1.5"), ("5. volume", "10")]
        ⟨[], [⟨"IBM", "2024-01-02", ⟨2024, 1, 2, 0, 0, 0⟩,
          ⟨⟨10, 1⟩, ⟨20, 1⟩, ⟨5, 1⟩, ⟨15, 1⟩, 10⟩⟩], [], []⟩ =
      ⟨[], [⟨"IBM", "2024-01-02", ⟨2024, 1, 2, 0, 0, 0⟩,
        ⟨⟨10, 1⟩, ⟨20, 1⟩, ⟨5, 1⟩, ⟨15, 1⟩, 10⟩⟩], [], []⟩ :=
  ⟨c2_sweep_idempotent.1
      (fun _ => FetchResult.ok [("Time Series (Daily)", .series
        [("2024-01-02", [("1. open", "1.0"), ("2. high", "2.0"),
          ("3. low", "0.5"), ("4. close", "1.5"), ("5. volume", "10")])])])
      ["IBM"] ["TIME_SERIES_DAILY"] [("IBM", "TIME_SERIES_DAILY")]
      [("IBM", "TIME_SERIES_DAILY")] ⟨[], [], [], []⟩ (by decide) (by decide),
    c2_sweep_idempotent.2.1 Decimal
      [⟨"IBM", "2024-01-02", ⟨2024, 1, 2, 0, 0, 0⟩, ⟨15, 1⟩⟩]
      ⟨"IBM", "other", ⟨2024, 1, 2, 0, 0, 0⟩, ⟨99, 0⟩⟩ (by decide),
    c2_sweep_idempotent.2.2 "IBM" "2024-01-02"
      [("1. open", "1.0"), ("2. high", "2.0"), ("3. low", "0.5"),
        ("4. close", "1.5"), ("5. volume", "10")]
      ⟨[], [⟨"IBM", "2024-01-02", ⟨2024, 1, 2, 0, 0, 0⟩,
        ⟨⟨10, 1⟩, ⟨20, 1⟩, ⟨5, 1⟩, ⟨15, 1⟩, 10⟩⟩], [], []⟩
      (fun d hd => by
        have h0 : parseDate "2024-01-02" = some ⟨2024, 1, 2, 0, 0, 0⟩ := by
          decide
        rw [h0] at hd
        cases hd
        decide)⟩
